import Mathlib

set_option maxHeartbeats 1000000

/-!
Verification development for the opcg-card-price scrape-and-ingest pipeline.

The Python sources are embedded shallowly:

* `models.py` : the `Card` and `Product` dataclasses.  Note: `models.Card`
  does not declare a `scraped_at` field, although `scraper.py` constructs
  `Card(..., scraped_at=date.today(), ...)` and `db_manager.py` reads
  `card.scraped_at`.  The embedding includes the field (as a `Nat` day
  ordinal), which is what the rest of the code base requires; the omission
  in `models.py` is recorded as a defect where relevant.
* `scraper.py` : `parse_card_page` navigates a BeautifulSoup DOM.  The DOM
  navigation results are represented by structures whose `Option` fields
  mirror each `find`/guard in the source, one field per sub-element looked
  up.  Network fetches are oracles (`String → Option _`, `none` modelling a
  `requests.RequestException`).  The thread-pool fan-in of
  `parse_product_page` is modelled by an explicit completion order: a
  permutation of the future indices.
* `db_manager.py` : SQLite tables are lists of rows appended in insertion
  order; `autoincrement` ids are per-table counters.  `session.add` +
  `flush` is modelled as an immediate insert that fails with
  `uniqueViolation` when a declared unique constraint would be violated
  (`product.name` is declared `unique=True`; `card` has
  `UniqueConstraint(product_id, name)`; `rarity.name` is unique;
  `card_price` has `UniqueConstraint(card_id, scraped_at)`), and
  `one_or_none` fails with `multipleResults` on more than one match.  The
  `with session:` block without a final commit rolls the database back, so
  on an error the run returns the original database; filesystem writes
  (`mkdir`, `write_bytes`) happen outside the transaction and persist.
  An effect trace records session opening, row queries and filesystem
  mutations.
-/

/-- Bytes of an image (`bytes` in Python), each entry one byte value. -/
abbrev ImageBytes := List Nat

/-- Embedding of the `Card` dataclass of `models.py`, with the
`scraped_at : date` field (a day ordinal here) that `scraper.py` passes and
`db_manager.py` reads; `models.py` itself omits this field, a defect
analysed separately. -/
structure Card where
  name : String
  rarity : String
  url : String
  image : ImageBytes
  number : String
  price : Int
  quantity : Int
  feature : String := ""
  color : String := ""
  scraped_at : Nat
deriving Repr, DecidableEq

/-- Embedding of the `Product` dataclass of `models.py`. -/
structure Product where
  name : String
  url : String
  cards : List Card := []
deriving Repr, DecidableEq

/-! ## Detail page structure (`Scraper.parse_card_page`)

Each `Option` mirrors one `find` call of the source; `none` means the
sub-element is missing from the markup. -/

/-- The `col-lg-5` image column: `img` is the `src` attribute of
`find("img", class_="vimg", src=True)` when that element exists. -/
structure ImgCol where
  img : Option String
deriving Repr, DecidableEq

/-- The `table-responsive` div: `firstTr` is the list of stripped texts of
the `td.text-dark` cells of the first `tr`, when that row exists. -/
structure TableDiv where
  firstTr : Option (List String)
deriving Repr, DecidableEq

/-- One `d-flex` block: stripped texts of its `border` element, its
`h4.fw-bold` price element and its `label.form-check-label`, when present. -/
structure DFlex where
  border : Option String
  priceH4 : Option String
  label : Option String
deriving Repr, DecidableEq

/-- The `col-lg-7` information column. -/
structure InfoCol where
  tableDiv : Option TableDiv
  dFlex : List DFlex
deriving Repr, DecidableEq

/-- The `section.product-detail#product-detail` container. -/
structure ProductDetail where
  imgCol : Option ImgCol
  infoCol : Option InfoCol
deriving Repr, DecidableEq

/-- A whole card detail page. -/
structure DetailPage where
  productDetail : Option ProductDetail
deriving Repr, DecidableEq

/-- The placeholder URL the source compares against before downloading. -/
def noImageUrl : String := "https://img.yuyu-tei.jp/card_image/noimage_front.jpg"

/-- Embedding of `re.sub(r"[^0-9]", "", s)`: keep only ASCII digits. -/
def digitsOnly (s : String) : String := String.mk (s.data.filter Char.isDigit)

/-- Decimal value of a digit string, accumulator style (the value
`int(...)` computes on a non-empty all-digit string). -/
def digitsToNat : List Char → Nat → Nat
  | [], acc => acc
  | c :: rest, acc => digitsToNat rest (acc * 10 + (c.toNat - '0'.toNat))

/-- Price normalisation of `parse_card_page`: strip non-digits, then
`int(...)`; a `ValueError` (no digits left) yields the default `0`. -/
def parsePrice (s : String) : Int :=
  if (digitsOnly s).data.isEmpty then 0 else ((digitsToNat (digitsOnly s).data 0 : Nat) : Int)

/-- Embedding of Python `int(...)` on a token with no surrounding
whitespace: an optional sign followed by at least one digit; anything else
raises `ValueError`, modelled as `none`. -/
def intOfChars : List Char → Option Int
  | [] => none
  | '-' :: rest =>
    if !rest.isEmpty && rest.all Char.isDigit then some (-(digitsToNat rest 0 : Nat)) else none
  | '+' :: rest =>
    if !rest.isEmpty && rest.all Char.isDigit then some ((digitsToNat rest 0 : Nat) : Int) else none
  | l =>
    if l.all Char.isDigit then some ((digitsToNat l 0 : Nat) : Int) else none

/-- Whitespace test for Python's Unicode `\s` character class (also used by
`str.strip()`). -/
def isWs (c : Char) : Bool :=
  c = ' ' || c = '\t' || c = '\n' || c = '\r' || c = '\x0b' || c = '\x0c' ||
  (0x1c ≤ c.toNat && c.toNat ≤ 0x1f) || c.toNat = 0x85 || c.toNat = 0xa0 ||
  c.toNat = 0x1680 || (0x2000 ≤ c.toNat && c.toNat ≤ 0x200a) ||
  c.toNat = 0x2028 || c.toNat = 0x2029 || c.toNat = 0x202f ||
  c.toNat = 0x205f || c.toNat = 0x3000

/-- Embedding of Python `str.strip()`: drop leading and trailing
whitespace. -/
def pyStrip (s : String) : String :=
  String.mk (((s.data.dropWhile isWs).reverse.dropWhile isWs).reverse)

/-- Embedding of Python `str.upper()` (per character; the tags compared
against are ASCII). -/
def pyUpper (s : String) : String := String.mk (s.data.map Char.toUpper)

/-- Embedding of Python `str.endswith(suffix)`. -/
def strEndsWith (s suffix : String) : Bool :=
  suffix.data.length ≤ s.data.length &&
    s.data.drop (s.data.length - suffix.data.length) == suffix.data

/-- Greedy-with-backtracking group of `(\S+)\s*点`: `run` is the maximal
non-space run at the group start, `rest` the input after it; lengths are
tried from the fuel (initially `run.length`) downwards, as a backtracking
regex engine does. -/
def qtyGroup (run rest : List Char) : Nat → Option (List Char)
  | 0 => none
  | Nat.succ k =>
    let after := (run.drop (k + 1) ++ rest).dropWhile isWs
    match after with
    | c :: _ => if c = '点' then some (run.take (k + 1)) else qtyGroup run rest k
    | [] => qtyGroup run rest k

/-- Match of `在庫\s*:\s*(\S+)\s*点` anchored at the head of `l`, returning
the captured group. -/
def qtyAt (l : List Char) : Option (List Char) :=
  match l with
  | '在' :: '庫' :: rest =>
    match rest.dropWhile isWs with
    | ':' :: r2 =>
      let r3 := r2.dropWhile isWs
      let run := r3.takeWhile (fun c => !isWs c)
      qtyGroup run (r3.drop run.length) run.length
    | _ => none
  | _ => none

/-- Embedding of `re.search(r"在庫\s*:\s*(\S+)\s*点", label_text)`: first
position (left to right) where the pattern matches. -/
def stockSearch : List Char → Option (List Char)
  | [] => none
  | c :: rest =>
    match qtyAt (c :: rest) with
    | some g => some g
    | none => stockSearch rest

/-- Stock-count recovery of `parse_card_page`: regex search over the label
text, then `int(...)` with `ValueError` defaulting to `0`; no match also
leaves the default `0`. -/
def parseQuantity (label : String) : Int :=
  match stockSearch label.data with
  | none => 0
  | some g =>
    match intOfChars g with
    | some n => n
    | none => 0

/-- Embedding of `Scraper.parse_card_page`.  `today` is `date.today()`;
`fetchImage` is the image download (`none` = `requests.RequestException`,
which the source catches and turns into empty bytes).  Every missing
sub-element keeps the initialised default of the source. -/
def parse_card_page (today : Nat) (fetchImage : String → Option ImageBytes)
    (page : DetailPage) : Card :=
  match page.productDetail with
  | none =>
    { name := "", rarity := "", url := "", image := [], number := "",
      price := 0, quantity := 0, feature := "", color := "", scraped_at := today }
  | some container =>
    let image : ImageBytes :=
      match container.imgCol with
      | none => []
      | some ic =>
        match ic.img with
        | none => []
        | some imgUrl =>
          if strEndsWith imgUrl ".jpg" && imgUrl != noImageUrl then
            match fetchImage imgUrl with
            | some bs => bs
            | none => []
          else []
    match container.infoCol with
    | none =>
      { name := "", rarity := "", url := "", image := image, number := "",
        price := 0, quantity := 0, feature := "", color := "", scraped_at := today }
    | some ic =>
      let fc : String × String :=
        match ic.tableDiv with
        | none => ("", "")
        | some td =>
          match td.firstTr with
          | none => ("", "")
          | some tds =>
            match tds with
            | [] => ("", "")
            | [t0] => (t0, "")
            | t0 :: t1 :: _ => (t0, t1)
      let number : String :=
        match ic.dFlex with
        | [] => ""
        | d0 :: _ =>
          match d0.border with
          | none => ""
          | some t => t
      let pq : Int × Int :=
        match ic.dFlex with
        | _ :: d1 :: _ =>
          let p : Int :=
            match d1.priceH4 with
            | none => 0
            | some t => parsePrice t
          let q : Int :=
            match d1.label with
            | none => 0
            | some t => parseQuantity t
          (p, q)
        | _ => (0, 0)
      { name := "", rarity := "", url := "", image := image, number := number,
        price := pq.1, quantity := pq.2, feature := fc.1, color := fc.2,
        scraped_at := today }

/-! ## Product page structure (`Scraper.parse_product_page`) -/

/-- One `div.col-md` inside a row: `link` is the `href` of `find("a",
href=True)` when present; `nameText` the stripped text of the
`text-primary` element when present. -/
structure ColS where
  link : Option String
  nameText : Option String
deriving Repr, DecidableEq

/-- One `div.row` of a card list. -/
structure RowS where
  cols : List ColS
deriving Repr, DecidableEq

/-- One `div#card-list3.py-4` group: `rarityText` is the stripped text of
its `py-2` rarity element when present. -/
structure CardGroup where
  rarityText : Option String
  rows : List RowS
deriving Repr, DecidableEq

/-- A product page: `container` is the `col-12 mb-5 pb-5` block when
present, holding its card-list groups. -/
structure ProductPage where
  container : Option (List CardGroup)
deriving Repr, DecidableEq

/-- A precollected card link: `(card_url, card_name, rarity)`. -/
structure Entry where
  url : String
  name : String
  rarity : String
deriving Repr, DecidableEq

/-- The skip test of `parse_product_page`:
`rarity.strip().upper() in {"C", "U", "UC"}`. -/
def excludedRarity (r : String) : Bool :=
  let n := pyUpper (pyStrip r)
  n == "C" || n == "U" || n == "UC"

/-- Entries contributed by one `div.col-md`. -/
def colEntries (rarity : String) (col : ColS) : List Entry :=
  match col.link with
  | none => []
  | some href => [⟨href, col.nameText.getD "", rarity⟩]

/-- Entries contributed by one card-list group; groups in an excluded
rarity tier are skipped before any link is collected. -/
def groupEntries (g : CardGroup) : List Entry :=
  let rarity := g.rarityText.getD ""
  if excludedRarity rarity then []
  else (g.rows.map (fun row => (row.cols.map (colEntries rarity)).flatten)).flatten

/-- The precollected entry list of `parse_product_page`. -/
def collectEntries (groups : List CardGroup) : List Entry :=
  (groups.map groupEntries).flatten

/-- Embedding of the `worker` closure of `parse_product_page`: fetch the
detail page (`none` = `requests.RequestException`, caught and turned into
`None`), parse it, drop the record when the catalog number is empty,
otherwise merge the stub's static fields in. -/
def worker (fetch : String → Option DetailPage) (today : Nat)
    (fetchImage : String → Option ImageBytes) (e : Entry) : Option Card :=
  match fetch e.url with
  | none => none
  | some page =>
    let card := parse_card_page today fetchImage page
    if card.number == "" then none
    else some { card with rarity := e.rarity, url := e.url, name := e.name }

/-- One progress line printed by the fan-in loop:
`[parse_product_page] idx/total shown-name`. -/
structure Progress where
  idx : Nat
  total : Nat
  shown : String
deriving Repr, DecidableEq

/-- The `as_completed` fan-in loop: `order` lists future indices in
completion order, `idx` is the 1-based running counter of `enumerate`;
completed successes are appended, each completion prints one progress
line. -/
def collectLoop (futures : List (Option Card)) (total : Nat) :
    List Nat → Nat → List Card × List Progress
  | [], _ => ([], [])
  | i :: rest, idx =>
    let tail := collectLoop futures total rest (idx + 1)
    match futures.getD i none with
    | some c => (c :: tail.1, ⟨idx, total, c.name⟩ :: tail.2)
    | none => (tail.1, ⟨idx, total, ""⟩ :: tail.2)

/-- Embedding of `Scraper.parse_product_page`: collect entries (with the
rarity filter), fan out one worker per entry, fan in following the
completion order `order` (a permutation of the future indices, since
workers race).  Returns the accepted cards and the printed progress
lines. -/
def parse_product_page (fetch : String → Option DetailPage) (today : Nat)
    (fetchImage : String → Option ImageBytes) (order : List Nat)
    (page : ProductPage) : List Card × List Progress :=
  match page.container with
  | none => ([], [])
  | some groups =>
    let entries := collectEntries groups
    let futures := entries.map (worker fetch today fetchImage)
    collectLoop futures entries.length order 1

/-! ## Ingestion store (`db_manager.py`) -/

/-- Row of the `product` table; `name` is declared `unique=True`. -/
structure ProductRow where
  id : Nat
  name : String
  url : String
deriving Repr, DecidableEq

/-- Row of the `rarity` table; `name` is declared `unique=True`. -/
structure RarityRow where
  id : Nat
  name : String
deriving Repr, DecidableEq

/-- Row of the `card` table; `UniqueConstraint(product_id, name)`. -/
structure CardRow where
  id : Nat
  product_id : Nat
  name : String
  rarity_id : Nat
  url : String
  number : String
  feature : String
  color : String
deriving Repr, DecidableEq

/-- Row of the `card_price` table; `UniqueConstraint(card_id, scraped_at)`. -/
structure CardPriceRow where
  id : Nat
  card_id : Nat
  price : Int
  quantity : Int
  scraped_at : Nat
deriving Repr, DecidableEq

/-- The SQLite database: one list per table, in insertion order, plus the
autoincrement counters. -/
structure Db where
  products : List ProductRow
  rarities : List RarityRow
  cards : List CardRow
  cardPrices : List CardPriceRow
  nextProductId : Nat
  nextRarityId : Nat
  nextCardId : Nat
  nextPriceId : Nat
deriving Repr, DecidableEq

/-- A fresh database, as created by `Base.metadata.create_all`. -/
def emptyDb : Db := ⟨[], [], [], [], 1, 1, 1, 1⟩

/-- The asset store: created directories and written files (path, bytes). -/
structure Fs where
  dirs : List String
  files : List (String × ImageBytes)
deriving Repr, DecidableEq

/-- An empty asset store. -/
def emptyFs : Fs := ⟨[], []⟩

/-- Observable side effects of one `insert_products` call: opening the
session, issuing a row query, and the filesystem mutations. -/
inductive Effect where
  | openSession
  | queryRow
  | mkdirDir (d : String)
  | writeFile (path : String) (bytes : ImageBytes)
deriving Repr, DecidableEq

/-- Database-layer exceptions: an `IntegrityError` from a violated unique
constraint at flush, or `MultipleResultsFound` from `one_or_none`. -/
inductive DbError where
  | uniqueViolation
  | multipleResults
deriving Repr, DecidableEq

/-- State threaded through one open session: the working database (inside
the transaction), the filesystem (outside it) and the effect trace. -/
structure Sess where
  db : Db
  fs : Fs
  tr : List Effect
deriving Repr, DecidableEq

/-- Result of one `insert_products` call. -/
structure RunResult where
  db : Db
  fs : Fs
  tr : List Effect
  err : Option DbError
deriving Repr, DecidableEq

/-- Embedding of `re.sub(r"[\\/:*?\"<>|]", "_", s)` on one character. -/
def sanitizeChar (c : Char) : Char :=
  if c = '\\' || c = '/' || c = ':' || c = '*' || c = '?' || c = '"' || c = '<' || c = '>' || c = '|'
  then '_' else c

/-- Path sanitisation used for product directories and card files. -/
def sanitize (s : String) : String := String.mk (s.data.map sanitizeChar)

/-- The directory used for one product's assets,
`<picture_dir>/<sanitized product name>`. -/
def prodDirOf (pictureDir : String) (name : String) : String :=
  pictureDir ++ "/" ++ sanitize name

/-- The file path used for one card's asset inside its product directory. -/
def cardPathOf (prodDir : String) (name : String) : String :=
  prodDir ++ "/" ++ sanitize name ++ ".jpg"

/-- Embedding of `.one_or_none()` over the rows matched by a query:
`MultipleResultsFound` when more than one row matches. -/
def listOneOrNone (l : List α) : Except DbError (Option α) :=
  match l with
  | [] => .ok none
  | [a] => .ok (some a)
  | _ => .error .multipleResults

/-- Record one issued row query in the trace. -/
def logQuery (s : Sess) : Sess := { s with tr := s.tr ++ [Effect.queryRow] }

/-- `session.add(ProductTable(...))` + `flush`: fails when the unique
constraint on `product.name` is violated. -/
def addProduct (p : Product) (s : Sess) : Except (DbError × Sess) (ProductRow × Sess) :=
  if s.db.products.any (fun r => r.name == p.name) then .error (.uniqueViolation, s)
  else
    let row : ProductRow := ⟨s.db.nextProductId, p.name, p.url⟩
    .ok (row, { s with db := { s.db with
      products := s.db.products ++ [row],
      nextProductId := s.db.nextProductId + 1 } })

/-- `session.add(RarityTable(...))` + `flush`: fails when the unique
constraint on `rarity.name` is violated. -/
def addRarity (name : String) (s : Sess) : Except (DbError × Sess) (RarityRow × Sess) :=
  if s.db.rarities.any (fun r => r.name == name) then .error (.uniqueViolation, s)
  else
    let row : RarityRow := ⟨s.db.nextRarityId, name⟩
    .ok (row, { s with db := { s.db with
      rarities := s.db.rarities ++ [row],
      nextRarityId := s.db.nextRarityId + 1 } })

/-- `session.add(CardTable(...))` + `flush`: fails when
`UniqueConstraint(product_id, name)` is violated. -/
def addCardRow (prodId rarId : Nat) (c : Card) (s : Sess) :
    Except (DbError × Sess) (CardRow × Sess) :=
  if s.db.cards.any (fun r => r.product_id == prodId && r.name == c.name) then
    .error (.uniqueViolation, s)
  else
    let row : CardRow := ⟨s.db.nextCardId, prodId, c.name, rarId, c.url, c.number, c.feature, c.color⟩
    .ok (row, { s with db := { s.db with
      cards := s.db.cards ++ [row],
      nextCardId := s.db.nextCardId + 1 } })

/-- `session.add(CardPrice(...))`: fails when
`UniqueConstraint(card_id, scraped_at)` is violated at commit. -/
def addPriceRow (cardId : Nat) (c : Card) (s : Sess) :
    Except (DbError × Sess) (CardPriceRow × Sess) :=
  if s.db.cardPrices.any (fun r => r.card_id == cardId && r.scraped_at == c.scraped_at) then
    .error (.uniqueViolation, s)
  else
    let row : CardPriceRow := ⟨s.db.nextPriceId, cardId, c.price, c.quantity, c.scraped_at⟩
    .ok (row, { s with db := { s.db with
      cardPrices := s.db.cardPrices ++ [row],
      nextPriceId := s.db.nextPriceId + 1 } })

/-- `prod_dir.mkdir(parents=True, exist_ok=True)`: create the directory
when absent; the trace records an actual creation. -/
def mkdirStep (d : String) (s : Sess) : Sess :=
  if s.fs.dirs.any (fun x => x == d) then s
  else { s with fs := { s.fs with dirs := s.fs.dirs ++ [d] },
                tr := s.tr ++ [Effect.mkdirDir d] }

/-- The asset write of `insert_products`: only when `card.image` is
non-empty, and skipped when a file already exists at the target path. -/
def writeAsset (prodDir : String) (c : Card) (s : Sess) : Sess :=
  if c.image.isEmpty then s
  else
    match s.fs.files.find? (fun pb => pb.1 == cardPathOf prodDir c.name) with
    | some _ => s
    | none => { s with
        fs := { s.fs with files := s.fs.files ++ [(cardPathOf prodDir c.name, c.image)] },
        tr := s.tr ++ [Effect.writeFile (cardPathOf prodDir c.name) c.image] }

/-- The rarity lookup-or-create of `insert_products`. -/
def getRarity (c : Card) (s : Sess) : Except (DbError × Sess) (RarityRow × Sess) :=
  let s1 := logQuery s
  match listOneOrNone (s1.db.rarities.filter (fun r => r.name == c.rarity)) with
  | .error e => .error (e, s1)
  | .ok (some r) => .ok (r, s1)
  | .ok none => addRarity c.rarity s1

/-- The observation step of `insert_products`: skip the insertion when a
price for this card was already recorded on the same date. -/
def priceStep (cardId : Nat) (c : Card) (s : Sess) : Except (DbError × Sess) Sess :=
  let s1 := logQuery s
  match s1.db.cardPrices.find? (fun r => r.card_id == cardId && r.scraped_at == c.scraped_at) with
  | some _ => .ok s1
  | none =>
    match addPriceRow cardId c s1 with
    | .error es => .error es
    | .ok (_, s2) => .ok s2

/-- The per-card body of `insert_products`: look up the card by
`(product_id, name)`; on a miss resolve the rarity, write the asset and
insert the card row; then handle the observation. -/
def stepCard (prodDir : String) (prodId : Nat) (c : Card) (s : Sess) :
    Except (DbError × Sess) Sess :=
  let s0 := logQuery s
  match listOneOrNone (s0.db.cards.filter (fun r => r.product_id == prodId && r.name == c.name)) with
  | .error e => .error (e, s0)
  | .ok (some cardRow) => priceStep cardRow.id c s0
  | .ok none =>
    match getRarity c s0 with
    | .error es => .error es
    | .ok (rarObj, s1) =>
      let s2 := writeAsset prodDir c s1
      match addCardRow prodId rarObj.id c s2 with
      | .error es => .error es
      | .ok (cardRow, s3) => priceStep cardRow.id c s3

/-- The inner `for card in product.cards` loop of `insert_products`. -/
def loopCards (prodDir : String) (prodId : Nat) : List Card → Sess → Except (DbError × Sess) Sess
  | [], s => .ok s
  | c :: rest, s =>
    match stepCard prodDir prodId c s with
    | .error es => .error es
    | .ok s' => loopCards prodDir prodId rest s'

/-- The per-product body of `insert_products`: look up the product by
`(name, url)` (create on a miss), make its picture directory, then process
its cards. -/
def stepProduct (pictureDir : String) (p : Product) (s : Sess) :
    Except (DbError × Sess) Sess :=
  let s0 := logQuery s
  match listOneOrNone (s0.db.products.filter (fun r => r.name == p.name && r.url == p.url)) with
  | .error e => .error (e, s0)
  | .ok prodOpt =>
    match (match prodOpt with
           | some r => Except.ok (r, s0)
           | none => addProduct p s0) with
    | .error es => .error es
    | .ok (prodRow, s1) =>
      let prodDir := prodDirOf pictureDir p.name
      let s2 := mkdirStep prodDir s1
      loopCards prodDir prodRow.id p.cards s2

/-- The outer `for product in products` loop of `insert_products`. -/
def loopProducts (pictureDir : String) : List Product → Sess → Except (DbError × Sess) Sess
  | [], s => .ok s
  | p :: rest, s =>
    match stepProduct pictureDir p s with
    | .error es => .error es
    | .ok s' => loopProducts pictureDir rest s'

/-- Embedding of `DatabaseManager.insert_products`.  An empty product list
returns before the session is opened.  Otherwise the whole batch runs in
one session committed at the end; an exception rolls the database back to
its state at call time, while filesystem effects performed so far
persist. -/
def insert_products (pictureDir : String) (ps : List Product) (db : Db) (fs : Fs) : RunResult :=
  if ps.isEmpty then ⟨db, fs, [], none⟩
  else
    match loopProducts pictureDir ps ⟨db, fs, [Effect.openSession]⟩ with
    | .ok s => ⟨s.db, s.fs, s.tr, none⟩
    | .error (e, s) => ⟨db, s.fs, s.tr, some e⟩

/-! ## Generic list lemmas -/

/-- A `find?` hit is stable under appending rows at the end, the only way
the store ever grows. -/
theorem find?_append_of_some {α : Type} {l t : List α} {p : α → Bool} {a : α}
    (h : l.find? p = some a) : (l ++ t).find? p = some a := by
  rw [List.find?_append, h]
  rfl

/-- Membership in a list with pairwise-distinct keys pins down the filter
result: a predicate that forces the key of `a` matches only `a`. -/
theorem filter_eq_singleton_of_uniqueKey {α β : Type} (key : α → β) {l : List α}
    (hu : l.Pairwise (fun x y => key x ≠ key y)) {p : α → Bool} {a : α}
    (ha : a ∈ l) (hpa : p a = true)
    (hkey : ∀ x ∈ l, p x = true → key x = key a) : l.filter p = [a] := by
  induction l with
  | nil => cases ha
  | cons b t ih =>
    rcases List.pairwise_cons.mp hu with ⟨hb, ht⟩
    rcases List.mem_cons.mp ha with rfl | hat
    · have hfilt : t.filter p = [] := by
        rw [List.filter_eq_nil_iff]
        intro x hx hpx
        exact hb x hx (hkey x (List.mem_cons_of_mem _ hx) hpx).symm
      simp [List.filter_cons, hpa, hfilt]
    · have hpb : p b = false := by
        by_contra hcon
        have hpb' : p b = true := by
          cases hpbv : p b with
          | false => exact absurd hpbv hcon
          | true => rfl
        exact hb a hat (hkey b (List.mem_cons_self b t) hpb')
      rw [List.filter_cons_of_neg (by simp [hpb])]
      exact ih ht hat (fun x hx hpx => hkey x (List.mem_cons_of_mem _ hx) hpx)

/-- Counting a predicate over positions of a list equals counting it over
the list. -/
theorem countP_range_getD {α : Type} (d : α) (p : α → Bool) :
    ∀ l : List α, (List.range l.length).countP (fun i => p (l.getD i d)) = l.countP p := by
  intro l
  induction l with
  | nil => simp
  | cons a t ih =>
    rw [List.length_cons, List.range_succ_eq_map, List.countP_cons, List.countP_map]
    have hcomp : ((fun i => p ((a :: t).getD i d)) ∘ Nat.succ) = fun i => p (t.getD i d) := by
      funext i
      simp [List.getD]
    rw [hcomp, ih, List.countP_cons]
    simp [List.getD]

/-- Splitting a count between a predicate and its negation. -/
theorem countP_add_countP_not {α : Type} (p : α → Bool) (l : List α) :
    l.countP p + l.countP (fun a => !p a) = l.length := by
  induction l with
  | nil => simp
  | cons a t ih =>
    rw [List.countP_cons, List.countP_cons]
    cases h : p a <;> simp [h] <;> omega

/-- A `getD` result that is not the default comes from the list. -/
theorem getD_eq_some_mem {α : Type} {l : List (Option α)} {i : Nat} {c : α}
    (h : l.getD i none = some c) : some c ∈ l := by
  have h' : (l.get? i).getD none = some c := by
    simpa [List.getD] using h
  cases hg : l.get? i with
  | none => rw [hg] at h' ; cases h'
  | some o =>
    rw [hg] at h'
    simp at h'
    subst h'
    exact List.get?_mem hg

/-! ## Growth of the store

Every operation of `insert_products` only appends rows, directories and
files; nothing is ever updated or deleted.  These relations capture that
and make lookups stable. -/

/-- `l₂` extends `l₁` at the end. -/
def listGrow {α : Type} (l₁ l₂ : List α) : Prop := ∃ t, l₂ = l₁ ++ t

theorem listGrow_refl {α : Type} (l : List α) : listGrow l l :=
  ⟨[], (List.append_nil l).symm⟩

theorem listGrow_trans {α : Type} {l₁ l₂ l₃ : List α}
    (h₁ : listGrow l₁ l₂) (h₂ : listGrow l₂ l₃) : listGrow l₁ l₃ := by
  rcases h₁ with ⟨t₁, rfl⟩
  rcases h₂ with ⟨t₂, rfl⟩
  exact ⟨t₁ ++ t₂, (List.append_assoc _ _ _)⟩

theorem listGrow_append {α : Type} (l t : List α) : listGrow l (l ++ t) := ⟨t, rfl⟩

theorem listGrow_mem {α : Type} {l₁ l₂ : List α} {a : α}
    (h : listGrow l₁ l₂) (ha : a ∈ l₁) : a ∈ l₂ := by
  rcases h with ⟨t, rfl⟩
  exact List.mem_append_left _ ha

theorem listGrow_find? {α : Type} {l₁ l₂ : List α} {p : α → Bool} {a : α}
    (h : listGrow l₁ l₂) (ha : l₁.find? p = some a) : l₂.find? p = some a := by
  rcases h with ⟨t, rfl⟩
  exact find?_append_of_some ha

/-- Table-wise growth of the database. -/
structure DbGrow (d₁ d₂ : Db) : Prop where
  products : listGrow d₁.products d₂.products
  rarities : listGrow d₁.rarities d₂.rarities
  cards : listGrow d₁.cards d₂.cards
  cardPrices : listGrow d₁.cardPrices d₂.cardPrices

theorem dbGrow_refl (d : Db) : DbGrow d d :=
  ⟨listGrow_refl _, listGrow_refl _, listGrow_refl _, listGrow_refl _⟩

theorem dbGrow_of_eq {d₁ d₂ : Db} (h : d₁ = d₂) : DbGrow d₁ d₂ := h ▸ dbGrow_refl d₁

theorem dbGrow_trans {d₁ d₂ d₃ : Db} (h₁ : DbGrow d₁ d₂) (h₂ : DbGrow d₂ d₃) :
    DbGrow d₁ d₃ :=
  ⟨listGrow_trans h₁.products h₂.products, listGrow_trans h₁.rarities h₂.rarities,
   listGrow_trans h₁.cards h₂.cards, listGrow_trans h₁.cardPrices h₂.cardPrices⟩

/-- Growth of the asset store. -/
structure FsGrow (f₁ f₂ : Fs) : Prop where
  dirs : listGrow f₁.dirs f₂.dirs
  files : listGrow f₁.files f₂.files

theorem fsGrow_refl (f : Fs) : FsGrow f f := ⟨listGrow_refl _, listGrow_refl _⟩

theorem fsGrow_of_eq {f₁ f₂ : Fs} (h : f₁ = f₂) : FsGrow f₁ f₂ := h ▸ fsGrow_refl f₁

theorem fsGrow_trans {f₁ f₂ f₃ : Fs} (h₁ : FsGrow f₁ f₂) (h₂ : FsGrow f₂ f₃) :
    FsGrow f₁ f₃ :=
  ⟨listGrow_trans h₁.dirs h₂.dirs, listGrow_trans h₁.files h₂.files⟩

/-- Growth of the whole session state. -/
structure SessGrow (s₁ s₂ : Sess) : Prop where
  db : DbGrow s₁.db s₂.db
  fs : FsGrow s₁.fs s₂.fs

theorem sessGrow_refl (s : Sess) : SessGrow s s := ⟨dbGrow_refl _, fsGrow_refl _⟩

theorem sessGrow_trans {s₁ s₂ s₃ : Sess} (h₁ : SessGrow s₁ s₂) (h₂ : SessGrow s₂ s₃) :
    SessGrow s₁ s₃ :=
  ⟨dbGrow_trans h₁.db h₂.db, fsGrow_trans h₁.fs h₂.fs⟩

theorem logQuery_db (s : Sess) : (logQuery s).db = s.db := rfl

theorem logQuery_fs (s : Sess) : (logQuery s).fs = s.fs := rfl

theorem logQuery_grow (s : Sess) : SessGrow s (logQuery s) := by
  unfold logQuery
  exact ⟨dbGrow_refl _, fsGrow_refl _⟩

theorem mkdirStep_db (d : String) (s : Sess) : (mkdirStep d s).db = s.db := by
  unfold mkdirStep
  split <;> rfl

theorem mkdirStep_grow (d : String) (s : Sess) : SessGrow s (mkdirStep d s) := by
  unfold mkdirStep
  split
  · exact sessGrow_refl s
  · exact ⟨dbGrow_refl _, ⟨listGrow_append _ _, listGrow_refl _⟩⟩

theorem writeAsset_db (prodDir : String) (c : Card) (s : Sess) :
    (writeAsset prodDir c s).db = s.db := by
  unfold writeAsset
  split
  · rfl
  · split <;> rfl

theorem writeAsset_grow (prodDir : String) (c : Card) (s : Sess) :
    SessGrow s (writeAsset prodDir c s) := by
  unfold writeAsset
  split
  · exact sessGrow_refl s
  · split
    · exact sessGrow_refl s
    · exact ⟨dbGrow_refl _, ⟨listGrow_refl _, listGrow_append _ _⟩⟩

theorem addProduct_grow_ok {p : Product} {s : Sess} {r : ProductRow} {s' : Sess}
    (h : addProduct p s = .ok (r, s')) : SessGrow s s' := by
  unfold addProduct at h
  split at h
  · cases h
  · simp only [Except.ok.injEq, Prod.mk.injEq] at h
    rcases h with ⟨-, rfl⟩
    exact ⟨⟨listGrow_append _ _, listGrow_refl _, listGrow_refl _, listGrow_refl _⟩, fsGrow_refl _⟩

theorem addProduct_grow_err {p : Product} {s : Sess} {e : DbError} {s' : Sess}
    (h : addProduct p s = .error (e, s')) : SessGrow s s' := by
  unfold addProduct at h
  split at h
  · simp only [Except.error.injEq, Prod.mk.injEq] at h
    rcases h with ⟨-, rfl⟩
    exact sessGrow_refl s
  · cases h

theorem addRarity_grow_ok {name : String} {s : Sess} {r : RarityRow} {s' : Sess}
    (h : addRarity name s = .ok (r, s')) : SessGrow s s' := by
  unfold addRarity at h
  split at h
  · cases h
  · simp only [Except.ok.injEq, Prod.mk.injEq] at h
    rcases h with ⟨-, rfl⟩
    exact ⟨⟨listGrow_refl _, listGrow_append _ _, listGrow_refl _, listGrow_refl _⟩, fsGrow_refl _⟩

theorem addRarity_grow_err {name : String} {s : Sess} {e : DbError} {s' : Sess}
    (h : addRarity name s = .error (e, s')) : SessGrow s s' := by
  unfold addRarity at h
  split at h
  · simp only [Except.error.injEq, Prod.mk.injEq] at h
    rcases h with ⟨-, rfl⟩
    exact sessGrow_refl s
  · cases h

theorem addCardRow_grow_ok {prodId rarId : Nat} {c : Card} {s : Sess} {r : CardRow} {s' : Sess}
    (h : addCardRow prodId rarId c s = .ok (r, s')) : SessGrow s s' := by
  unfold addCardRow at h
  split at h
  · cases h
  · simp only [Except.ok.injEq, Prod.mk.injEq] at h
    rcases h with ⟨-, rfl⟩
    exact ⟨⟨listGrow_refl _, listGrow_refl _, listGrow_append _ _, listGrow_refl _⟩, fsGrow_refl _⟩

theorem addCardRow_grow_err {prodId rarId : Nat} {c : Card} {s : Sess} {e : DbError} {s' : Sess}
    (h : addCardRow prodId rarId c s = .error (e, s')) : SessGrow s s' := by
  unfold addCardRow at h
  split at h
  · simp only [Except.error.injEq, Prod.mk.injEq] at h
    rcases h with ⟨-, rfl⟩
    exact sessGrow_refl s
  · cases h

theorem addPriceRow_grow_ok {cardId : Nat} {c : Card} {s : Sess} {r : CardPriceRow} {s' : Sess}
    (h : addPriceRow cardId c s = .ok (r, s')) : SessGrow s s' := by
  unfold addPriceRow at h
  split at h
  · cases h
  · simp only [Except.ok.injEq, Prod.mk.injEq] at h
    rcases h with ⟨-, rfl⟩
    exact ⟨⟨listGrow_refl _, listGrow_refl _, listGrow_refl _, listGrow_append _ _⟩, fsGrow_refl _⟩

theorem addPriceRow_grow_err {cardId : Nat} {c : Card} {s : Sess} {e : DbError} {s' : Sess}
    (h : addPriceRow cardId c s = .error (e, s')) : SessGrow s s' := by
  unfold addPriceRow at h
  split at h
  · simp only [Except.error.injEq, Prod.mk.injEq] at h
    rcases h with ⟨-, rfl⟩
    exact sessGrow_refl s
  · cases h

theorem getRarity_grow_ok {c : Card} {s : Sess} {r : RarityRow} {s' : Sess}
    (h : getRarity c s = .ok (r, s')) : SessGrow s s' := by
  unfold getRarity at h
  simp only [] at h
  split at h
  · cases h
  · simp only [Except.ok.injEq, Prod.mk.injEq] at h
    rcases h with ⟨-, rfl⟩
    exact logQuery_grow s
  · exact sessGrow_trans (logQuery_grow s) (addRarity_grow_ok h)

theorem getRarity_grow_err {c : Card} {s : Sess} {e : DbError} {s' : Sess}
    (h : getRarity c s = .error (e, s')) : SessGrow s s' := by
  unfold getRarity at h
  simp only [] at h
  split at h
  · simp only [Except.error.injEq, Prod.mk.injEq] at h
    rcases h with ⟨-, rfl⟩
    exact logQuery_grow s
  · cases h
  · exact sessGrow_trans (logQuery_grow s) (addRarity_grow_err h)

theorem priceStep_grow_ok {cardId : Nat} {c : Card} {s s' : Sess}
    (h : priceStep cardId c s = .ok s') : SessGrow s s' := by
  unfold priceStep at h
  simp only [] at h
  split at h
  · simp only [Except.ok.injEq] at h
    subst h
    exact logQuery_grow s
  · split at h
    · cases h
    · rename_i heq
      simp only [Except.ok.injEq] at h
      subst h
      exact sessGrow_trans (logQuery_grow s) (addPriceRow_grow_ok heq)

theorem priceStep_grow_err {cardId : Nat} {c : Card} {s : Sess} {e : DbError} {s' : Sess}
    (h : priceStep cardId c s = .error (e, s')) : SessGrow s s' := by
  unfold priceStep at h
  simp only [] at h
  split at h
  · cases h
  · split at h
    · rename_i es heq
      rcases es with ⟨e2, s2e⟩
      simp only [Except.error.injEq, Prod.mk.injEq] at h
      rcases h with ⟨rfl, rfl⟩
      exact sessGrow_trans (logQuery_grow s) (addPriceRow_grow_err heq)
    · cases h

theorem stepCard_grow_ok {prodDir : String} {prodId : Nat} {c : Card} {s s' : Sess}
    (h : stepCard prodDir prodId c s = .ok s') : SessGrow s s' := by
  unfold stepCard at h
  simp only [] at h
  split at h
  · cases h
  · exact sessGrow_trans (logQuery_grow s) (priceStep_grow_ok h)
  · split at h
    · cases h
    · rename_i rarObj s1 heq
      split at h
      · cases h
      · rename_i cardRow s3 heq2
        have g1 : SessGrow s s1 := sessGrow_trans (logQuery_grow s) (getRarity_grow_ok heq)
        have g2 : SessGrow s1 s3 :=
          sessGrow_trans (writeAsset_grow prodDir c s1) (addCardRow_grow_ok heq2)
        exact sessGrow_trans (sessGrow_trans g1 g2) (priceStep_grow_ok h)

theorem stepCard_grow_err {prodDir : String} {prodId : Nat} {c : Card} {s : Sess}
    {e : DbError} {s' : Sess}
    (h : stepCard prodDir prodId c s = .error (e, s')) : SessGrow s s' := by
  unfold stepCard at h
  simp only [] at h
  split at h
  · simp only [Except.error.injEq, Prod.mk.injEq] at h
    rcases h with ⟨-, rfl⟩
    exact logQuery_grow s
  · exact sessGrow_trans (logQuery_grow s) (priceStep_grow_err h)
  · split at h
    · rename_i es heq
      rcases es with ⟨e2, s2e⟩
      simp only [Except.error.injEq, Prod.mk.injEq] at h
      rcases h with ⟨rfl, rfl⟩
      exact sessGrow_trans (logQuery_grow s) (getRarity_grow_err heq)
    · rename_i rarObj s1 heq
      have g1 : SessGrow s s1 := sessGrow_trans (logQuery_grow s) (getRarity_grow_ok heq)
      split at h
      · rename_i es heq2
        rcases es with ⟨e2, s2e⟩
        simp only [Except.error.injEq, Prod.mk.injEq] at h
        rcases h with ⟨rfl, rfl⟩
        exact sessGrow_trans g1
          (sessGrow_trans (writeAsset_grow prodDir c s1) (addCardRow_grow_err heq2))
      · rename_i cardRow s3 heq2
        have g2 : SessGrow s1 s3 :=
          sessGrow_trans (writeAsset_grow prodDir c s1) (addCardRow_grow_ok heq2)
        exact sessGrow_trans (sessGrow_trans g1 g2) (priceStep_grow_err h)

theorem loopCards_grow_ok {prodDir : String} {prodId : Nat} :
    ∀ {cs : List Card} {s s' : Sess},
      loopCards prodDir prodId cs s = .ok s' → SessGrow s s' := by
  intro cs
  induction cs with
  | nil =>
    intro s s' h
    unfold loopCards at h
    simp only [Except.ok.injEq] at h
    subst h
    exact sessGrow_refl _
  | cons c rest ih =>
    intro s s' h
    unfold loopCards at h
    split at h
    · cases h
    · rename_i s₁ heq
      exact sessGrow_trans (stepCard_grow_ok heq) (ih h)

theorem loopCards_grow_err {prodDir : String} {prodId : Nat} :
    ∀ {cs : List Card} {s : Sess} {e : DbError} {s' : Sess},
      loopCards prodDir prodId cs s = .error (e, s') → SessGrow s s' := by
  intro cs
  induction cs with
  | nil =>
    intro s e s' h
    unfold loopCards at h
    cases h
  | cons c rest ih =>
    intro s e s' h
    unfold loopCards at h
    split at h
    · rename_i es heq
      rcases es with ⟨e2, s2e⟩
      simp only [Except.error.injEq, Prod.mk.injEq] at h
      rcases h with ⟨rfl, rfl⟩
      exact stepCard_grow_err heq
    · rename_i s₁ heq
      exact sessGrow_trans (stepCard_grow_ok heq) (ih h)

theorem stepProduct_grow_ok {pictureDir : String} {p : Product} {s s' : Sess}
    (h : stepProduct pictureDir p s = .ok s') : SessGrow s s' := by
  unfold stepProduct at h
  simp only [] at h
  split at h
  · cases h
  · rename_i prodOpt heqOuter
    clear heqOuter
    rcases prodOpt with _ | r
    · simp only [] at h
      split at h
      · cases h
      · rename_i prodRow s1 heq
        have g1 : SessGrow s s1 := sessGrow_trans (logQuery_grow s) (addProduct_grow_ok heq)
        exact sessGrow_trans g1
          (sessGrow_trans (mkdirStep_grow _ s1) (loopCards_grow_ok h))
    · simp only [] at h
      exact sessGrow_trans (logQuery_grow s)
        (sessGrow_trans (mkdirStep_grow _ (logQuery s)) (loopCards_grow_ok h))

theorem stepProduct_grow_err {pictureDir : String} {p : Product} {s : Sess}
    {e : DbError} {s' : Sess}
    (h : stepProduct pictureDir p s = .error (e, s')) : SessGrow s s' := by
  unfold stepProduct at h
  simp only [] at h
  split at h
  · simp only [Except.error.injEq, Prod.mk.injEq] at h
    rcases h with ⟨-, rfl⟩
    exact logQuery_grow s
  · rename_i prodOpt heqOuter
    clear heqOuter
    rcases prodOpt with _ | r
    · simp only [] at h
      split at h
      · rename_i es heq
        rcases es with ⟨e2, s2e⟩
        simp only [Except.error.injEq, Prod.mk.injEq] at h
        rcases h with ⟨rfl, rfl⟩
        exact sessGrow_trans (logQuery_grow s) (addProduct_grow_err heq)
      · rename_i prodRow s1 heq
        have g1 : SessGrow s s1 := sessGrow_trans (logQuery_grow s) (addProduct_grow_ok heq)
        exact sessGrow_trans g1
          (sessGrow_trans (mkdirStep_grow _ s1) (loopCards_grow_err h))
    · simp only [] at h
      exact sessGrow_trans (logQuery_grow s)
        (sessGrow_trans (mkdirStep_grow _ (logQuery s)) (loopCards_grow_err h))

theorem loopProducts_grow_ok {pictureDir : String} :
    ∀ {ps : List Product} {s s' : Sess},
      loopProducts pictureDir ps s = .ok s' → SessGrow s s' := by
  intro ps
  induction ps with
  | nil =>
    intro s s' h
    unfold loopProducts at h
    simp only [Except.ok.injEq] at h
    subst h
    exact sessGrow_refl _
  | cons p rest ih =>
    intro s s' h
    unfold loopProducts at h
    split at h
    · cases h
    · rename_i s₁ heq
      exact sessGrow_trans (stepProduct_grow_ok heq) (ih h)

theorem loopProducts_grow_err {pictureDir : String} :
    ∀ {ps : List Product} {s : Sess} {e : DbError} {s' : Sess},
      loopProducts pictureDir ps s = .error (e, s') → SessGrow s s' := by
  intro ps
  induction ps with
  | nil =>
    intro s e s' h
    unfold loopProducts at h
    cases h
  | cons p rest ih =>
    intro s e s' h
    unfold loopProducts at h
    split at h
    · rename_i es heq
      rcases es with ⟨e2, s2e⟩
      simp only [Except.error.injEq, Prod.mk.injEq] at h
      rcases h with ⟨rfl, rfl⟩
      exact stepProduct_grow_err heq
    · rename_i s₁ heq
      exact sessGrow_trans (stepProduct_grow_ok heq) (ih h)

/-- The asset store only ever grows across a call, whether or not the call
fails. -/
theorem insert_products_fs_grow (pictureDir : String) (ps : List Product) (db : Db) (fs : Fs) :
    FsGrow fs (insert_products pictureDir ps db fs).fs := by
  unfold insert_products
  split
  · exact fsGrow_refl fs
  · split
    · rename_i s heq
      exact (loopProducts_grow_ok heq).fs
    · rename_i es heq
      rcases es with ⟨e, s⟩
      exact (loopProducts_grow_err heq).fs

/-- On success the database only grows. -/
theorem insert_products_db_grow {pictureDir : String} {ps : List Product} {db : Db} {fs : Fs}
    (h : (insert_products pictureDir ps db fs).err = none) :
    DbGrow db (insert_products pictureDir ps db fs).db := by
  unfold insert_products at h ⊢
  by_cases hps : ps.isEmpty
  · rw [if_pos hps]
    exact dbGrow_refl db
  · rw [if_neg hps] at h ⊢
    cases hmatch : loopProducts pictureDir ps ⟨db, fs, [Effect.openSession]⟩ with
    | ok s =>
      exact (loopProducts_grow_ok hmatch).db
    | error es =>
      rcases es with ⟨e, s⟩
      rw [hmatch] at h
      exact Option.noConfusion h

/-- On failure the transaction rolls back: the database is returned
unchanged. -/
theorem insert_products_db_rollback {pictureDir : String} {ps : List Product} {db : Db}
    {fs : Fs} {e : DbError}
    (h : (insert_products pictureDir ps db fs).err = some e) :
    (insert_products pictureDir ps db fs).db = db := by
  unfold insert_products at h ⊢
  by_cases hps : ps.isEmpty
  · rw [if_pos hps] at h
    cases h
  · rw [if_neg hps] at h ⊢
    cases hmatch : loopProducts pictureDir ps ⟨db, fs, [Effect.openSession]⟩ with
    | ok s =>
      rw [hmatch] at h
      exact Option.noConfusion h
    | error es =>
      rcases es with ⟨e2, s⟩
      rfl

/-! ## The uniqueness invariant of the store

`product.name` is declared unique (note: the name alone, not the
`(name, url)` pair), `rarity.name` is unique, `card` is unique on
`(product_id, name)` and `card_price` on `(card_id, scraped_at)`. -/

/-- All elements of `l` have pairwise-distinct keys. -/
def uniqueKeys {α β : Type} (key : α → β) (l : List α) : Prop :=
  l.Pairwise (fun a b => key a ≠ key b)

theorem uniqueKeys_nil {α β : Type} (key : α → β) : uniqueKeys key [] :=
  List.Pairwise.nil

theorem uniqueKeys_append {α β : Type} {key : α → β} {l : List α} {x : α}
    (hu : uniqueKeys key l) (hx : ∀ a ∈ l, key a ≠ key x) :
    uniqueKeys key (l ++ [x]) := by
  rw [uniqueKeys, List.pairwise_append]
  exact ⟨hu, List.pairwise_singleton _ _, fun a ha b hb => by
    rcases List.mem_singleton.mp hb with rfl
    exact hx a ha⟩

theorem any_eq_false_forall {α : Type} {l : List α} {p : α → Bool}
    (h : ¬ l.any p = true) : ∀ x ∈ l, p x = false := by
  intro x hx
  cases hv : p x with
  | false => rfl
  | true => exact absurd (List.any_eq_true.mpr ⟨x, hx, hv⟩) h

/-- The uniqueness constraints the store declares, as an invariant. -/
structure DbInv (d : Db) : Prop where
  products : uniqueKeys (fun r : ProductRow => r.name) d.products
  rarities : uniqueKeys (fun r : RarityRow => r.name) d.rarities
  cards : uniqueKeys (fun r : CardRow => (r.product_id, r.name)) d.cards
  cardPrices : uniqueKeys (fun r : CardPriceRow => (r.card_id, r.scraped_at)) d.cardPrices

theorem dbInv_empty : DbInv emptyDb :=
  ⟨uniqueKeys_nil _, uniqueKeys_nil _, uniqueKeys_nil _, uniqueKeys_nil _⟩

theorem addProduct_inv {p : Product} {s : Sess} {r : ProductRow} {s' : Sess}
    (h : addProduct p s = .ok (r, s')) (hinv : DbInv s.db) : DbInv s'.db := by
  unfold addProduct at h
  split at h
  · cases h
  · rename_i hguard
    simp only [Except.ok.injEq, Prod.mk.injEq] at h
    rcases h with ⟨-, rfl⟩
    refine ⟨?_, hinv.rarities, hinv.cards, hinv.cardPrices⟩
    refine uniqueKeys_append hinv.products ?_
    intro a ha
    have := any_eq_false_forall hguard a ha
    simpa using this

theorem addRarity_inv {name : String} {s : Sess} {r : RarityRow} {s' : Sess}
    (h : addRarity name s = .ok (r, s')) (hinv : DbInv s.db) : DbInv s'.db := by
  unfold addRarity at h
  split at h
  · cases h
  · rename_i hguard
    simp only [Except.ok.injEq, Prod.mk.injEq] at h
    rcases h with ⟨-, rfl⟩
    refine ⟨hinv.products, ?_, hinv.cards, hinv.cardPrices⟩
    refine uniqueKeys_append hinv.rarities ?_
    intro a ha
    have := any_eq_false_forall hguard a ha
    simpa using this

theorem addCardRow_inv {prodId rarId : Nat} {c : Card} {s : Sess} {r : CardRow} {s' : Sess}
    (h : addCardRow prodId rarId c s = .ok (r, s')) (hinv : DbInv s.db) : DbInv s'.db := by
  unfold addCardRow at h
  split at h
  · cases h
  · rename_i hguard
    simp only [Except.ok.injEq, Prod.mk.injEq] at h
    rcases h with ⟨-, rfl⟩
    refine ⟨hinv.products, hinv.rarities, ?_, hinv.cardPrices⟩
    refine uniqueKeys_append hinv.cards ?_
    intro a ha
    have := any_eq_false_forall hguard a ha
    simp only [ne_eq, Prod.mk.injEq, not_and]
    simpa using this

theorem addPriceRow_inv {cardId : Nat} {c : Card} {s : Sess} {r : CardPriceRow} {s' : Sess}
    (h : addPriceRow cardId c s = .ok (r, s')) (hinv : DbInv s.db) : DbInv s'.db := by
  unfold addPriceRow at h
  split at h
  · cases h
  · rename_i hguard
    simp only [Except.ok.injEq, Prod.mk.injEq] at h
    rcases h with ⟨-, rfl⟩
    refine ⟨hinv.products, hinv.rarities, hinv.cards, ?_⟩
    refine uniqueKeys_append hinv.cardPrices ?_
    intro a ha
    have := any_eq_false_forall hguard a ha
    simp only [ne_eq, Prod.mk.injEq, not_and]
    simpa using this

theorem getRarity_inv {c : Card} {s : Sess} {r : RarityRow} {s' : Sess}
    (h : getRarity c s = .ok (r, s')) (hinv : DbInv s.db) : DbInv s'.db := by
  unfold getRarity at h
  simp only [] at h
  split at h
  · cases h
  · simp only [Except.ok.injEq, Prod.mk.injEq] at h
    rcases h with ⟨-, rfl⟩
    exact hinv
  · exact addRarity_inv h hinv

theorem priceStep_inv {cardId : Nat} {c : Card} {s s' : Sess}
    (h : priceStep cardId c s = .ok s') (hinv : DbInv s.db) : DbInv s'.db := by
  unfold priceStep at h
  simp only [] at h
  split at h
  · simp only [Except.ok.injEq] at h
    subst h
    exact hinv
  · split at h
    · cases h
    · rename_i heq
      simp only [Except.ok.injEq] at h
      subst h
      exact addPriceRow_inv heq hinv

theorem stepCard_inv {prodDir : String} {prodId : Nat} {c : Card} {s s' : Sess}
    (h : stepCard prodDir prodId c s = .ok s') (hinv : DbInv s.db) : DbInv s'.db := by
  unfold stepCard at h
  simp only [] at h
  split at h
  · cases h
  · exact priceStep_inv h hinv
  · split at h
    · cases h
    · rename_i rarObj s1 heq
      split at h
      · cases h
      · rename_i cardRow s3 heq2
        have hinv1 : DbInv s1.db := getRarity_inv heq hinv
        have hinv2 : DbInv (writeAsset prodDir c s1).db := by
          rw [writeAsset_db]
          exact hinv1
        have hinv3 : DbInv s3.db := addCardRow_inv heq2 hinv2
        exact priceStep_inv h hinv3

theorem loopCards_inv {prodDir : String} {prodId : Nat} :
    ∀ {cs : List Card} {s s' : Sess},
      loopCards prodDir prodId cs s = .ok s' → DbInv s.db → DbInv s'.db := by
  intro cs
  induction cs with
  | nil =>
    intro s s' h hinv
    unfold loopCards at h
    simp only [Except.ok.injEq] at h
    subst h
    exact hinv
  | cons c rest ih =>
    intro s s' h hinv
    unfold loopCards at h
    split at h
    · cases h
    · rename_i s₁ heq
      exact ih h (stepCard_inv heq hinv)

theorem stepProduct_inv {pictureDir : String} {p : Product} {s s' : Sess}
    (h : stepProduct pictureDir p s = .ok s') (hinv : DbInv s.db) : DbInv s'.db := by
  unfold stepProduct at h
  simp only [] at h
  split at h
  · cases h
  · rename_i prodOpt heqOuter
    clear heqOuter
    rcases prodOpt with _ | r
    · simp only [] at h
      split at h
      · cases h
      · rename_i prodRow s1 heq
        have hinv1 : DbInv s1.db := addProduct_inv heq hinv
        have hinv2 : DbInv (mkdirStep (prodDirOf pictureDir p.name) s1).db := by
          rw [mkdirStep_db]
          exact hinv1
        exact loopCards_inv h hinv2
    · simp only [] at h
      have hinv2 : DbInv (mkdirStep (prodDirOf pictureDir p.name) (logQuery s)).db := by
        rw [mkdirStep_db]
        exact hinv
      exact loopCards_inv h hinv2

theorem loopProducts_inv {pictureDir : String} :
    ∀ {ps : List Product} {s s' : Sess},
      loopProducts pictureDir ps s = .ok s' → DbInv s.db → DbInv s'.db := by
  intro ps
  induction ps with
  | nil =>
    intro s s' h hinv
    unfold loopProducts at h
    simp only [Except.ok.injEq] at h
    subst h
    exact hinv
  | cons p rest ih =>
    intro s s' h hinv
    unfold loopProducts at h
    split at h
    · cases h
    · rename_i s₁ heq
      exact ih h (stepProduct_inv heq hinv)

/-- `insert_products` preserves the store's uniqueness invariant, on
success (all rows were inserted under passing constraint checks) and on
failure (the transaction rolled back). -/
theorem insert_products_inv (pictureDir : String) (ps : List Product) (db : Db) (fs : Fs)
    (hinv : DbInv db) : DbInv (insert_products pictureDir ps db fs).db := by
  unfold insert_products
  by_cases hps : ps.isEmpty
  · rw [if_pos hps]
    exact hinv
  · rw [if_neg hps]
    cases hmatch : loopProducts pictureDir ps ⟨db, fs, [Effect.openSession]⟩ with
    | ok s => exact loopProducts_inv hmatch hinv
    | error es =>
      rcases es with ⟨e, s⟩
      exact hinv

/-! ## Postconditions of a successful run -/

/-- The store already holds this card under product row `prodId`: a card
row keyed `(prodId, c.name)` and an observation for it dated
`c.scraped_at`. -/
def cardDone (d : Db) (prodId : Nat) (c : Card) : Prop :=
  ∃ cr ∈ d.cards, cr.product_id = prodId ∧ cr.name = c.name ∧
    ∃ pr ∈ d.cardPrices, pr.card_id = cr.id ∧ pr.scraped_at = c.scraped_at

/-- The store already holds this product: a product row with its name and
url, its picture directory, and every one of its cards. -/
def productDone (pictureDir : String) (d : Db) (f : Fs) (p : Product) : Prop :=
  ∃ r ∈ d.products, r.name = p.name ∧ r.url = p.url ∧
    prodDirOf pictureDir p.name ∈ f.dirs ∧
    ∀ c ∈ p.cards, cardDone d r.id c

theorem cardDone_mono {d d' : Db} {prodId : Nat} {c : Card}
    (hg : DbGrow d d') (h : cardDone d prodId c) : cardDone d' prodId c := by
  rcases h with ⟨cr, hcr, h1, h2, pr, hpr, h3, h4⟩
  exact ⟨cr, listGrow_mem hg.cards hcr, h1, h2, pr, listGrow_mem hg.cardPrices hpr, h3, h4⟩

theorem productDone_mono {pictureDir : String} {d d' : Db} {f f' : Fs} {p : Product}
    (hg : DbGrow d d') (hf : FsGrow f f') (h : productDone pictureDir d f p) :
    productDone pictureDir d' f' p := by
  rcases h with ⟨r, hr, h1, h2, hdir, hcards⟩
  exact ⟨r, listGrow_mem hg.products hr, h1, h2, listGrow_mem hf.dirs hdir,
    fun c hc => cardDone_mono hg (hcards c hc)⟩

theorem listOneOrNone_eq_some {α : Type} {l : List α} {a : α}
    (h : listOneOrNone l = .ok (some a)) : l = [a] := by
  unfold listOneOrNone at h
  split at h
  · cases h
  · simp only [Except.ok.injEq, Option.some.injEq] at h
    subst h
    rfl
  · cases h

theorem addPriceRow_post {cardId : Nat} {c : Card} {s : Sess} {r : CardPriceRow} {s' : Sess}
    (h : addPriceRow cardId c s = .ok (r, s')) :
    r ∈ s'.db.cardPrices ∧ r.card_id = cardId ∧ r.scraped_at = c.scraped_at ∧
      r.price = c.price ∧ r.quantity = c.quantity := by
  unfold addPriceRow at h
  split at h
  · cases h
  · simp only [Except.ok.injEq, Prod.mk.injEq] at h
    rcases h with ⟨rfl, rfl⟩
    refine ⟨?_, rfl, rfl, rfl, rfl⟩
    exact List.mem_append_right _ (List.mem_singleton.mpr rfl)

theorem addCardRow_post {prodId rarId : Nat} {c : Card} {s : Sess} {r : CardRow} {s' : Sess}
    (h : addCardRow prodId rarId c s = .ok (r, s')) :
    r ∈ s'.db.cards ∧ r.product_id = prodId ∧ r.name = c.name := by
  unfold addCardRow at h
  split at h
  · cases h
  · simp only [Except.ok.injEq, Prod.mk.injEq] at h
    rcases h with ⟨rfl, rfl⟩
    refine ⟨?_, rfl, rfl⟩
    exact List.mem_append_right _ (List.mem_singleton.mpr rfl)

theorem addProduct_post {p : Product} {s : Sess} {r : ProductRow} {s' : Sess}
    (h : addProduct p s = .ok (r, s')) :
    r ∈ s'.db.products ∧ r.name = p.name ∧ r.url = p.url := by
  unfold addProduct at h
  split at h
  · cases h
  · simp only [Except.ok.injEq, Prod.mk.injEq] at h
    rcases h with ⟨rfl, rfl⟩
    refine ⟨?_, rfl, rfl⟩
    exact List.mem_append_right _ (List.mem_singleton.mpr rfl)

theorem priceStep_post {cardId : Nat} {c : Card} {s s' : Sess}
    (h : priceStep cardId c s = .ok s') :
    ∃ pr ∈ s'.db.cardPrices, pr.card_id = cardId ∧ pr.scraped_at = c.scraped_at := by
  unfold priceStep at h
  simp only [] at h
  split at h
  · rename_i pr0 hfind
    simp only [Except.ok.injEq] at h
    subst h
    have hmem := List.mem_of_find?_eq_some hfind
    have hp := List.find?_some hfind
    simp only [Bool.and_eq_true, beq_iff_eq] at hp
    exact ⟨pr0, hmem, hp.1, hp.2⟩
  · split at h
    · cases h
    · rename_i heq
      simp only [Except.ok.injEq] at h
      subst h
      rcases addPriceRow_post heq with ⟨hmem, h1, h2, -, -⟩
      exact ⟨_, hmem, h1, h2⟩

theorem stepCard_post {prodDir : String} {prodId : Nat} {c : Card} {s s' : Sess}
    (h : stepCard prodDir prodId c s = .ok s') : cardDone s'.db prodId c := by
  unfold stepCard at h
  simp only [] at h
  split at h
  · cases h
  · rename_i cardRow heq
    have hfilt := listOneOrNone_eq_some heq
    have hcr : cardRow ∈ (logQuery s).db.cards ∧
        (cardRow.product_id == prodId && cardRow.name == c.name) = true := by
      have : cardRow ∈ List.filter (fun r => r.product_id == prodId && r.name == c.name)
          (logQuery s).db.cards := by
        rw [hfilt]
        exact List.mem_singleton.mpr rfl
      exact List.mem_filter.mp this
    rcases hcr with ⟨hmem, hpred⟩
    simp only [Bool.and_eq_true, beq_iff_eq] at hpred
    rcases priceStep_post h with ⟨pr, hprm, hp1, hp2⟩
    have hg : SessGrow (logQuery s) s' := priceStep_grow_ok h
    exact ⟨cardRow, listGrow_mem hg.db.cards hmem, hpred.1, hpred.2, pr, hprm, hp1, hp2⟩
  · split at h
    · cases h
    · rename_i rarObj s1 heq
      split at h
      · cases h
      · rename_i cardRow s3 heq2
        rcases addCardRow_post heq2 with ⟨hmem, h1, h2⟩
        rcases priceStep_post h with ⟨pr, hprm, hp1, hp2⟩
        have hg : SessGrow s3 s' := priceStep_grow_ok h
        exact ⟨cardRow, listGrow_mem hg.db.cards hmem, h1, h2, pr, hprm, hp1, hp2⟩

theorem loopCards_post {prodDir : String} {prodId : Nat} :
    ∀ {cs : List Card} {s s' : Sess},
      loopCards prodDir prodId cs s = .ok s' → ∀ c ∈ cs, cardDone s'.db prodId c := by
  intro cs
  induction cs with
  | nil =>
    intro s s' h c hc
    cases hc
  | cons c0 rest ih =>
    intro s s' h c hc
    unfold loopCards at h
    split at h
    · cases h
    · rename_i s₁ heq
      rcases List.mem_cons.mp hc with rfl | hcr
      · exact cardDone_mono (loopCards_grow_ok h).db (stepCard_post heq)
      · exact ih h c hcr

theorem mkdirStep_mem (d : String) (s : Sess) : d ∈ (mkdirStep d s).fs.dirs := by
  unfold mkdirStep
  split
  · rename_i hany
    rcases List.any_eq_true.mp hany with ⟨x, hx, hbeq⟩
    rw [beq_iff_eq] at hbeq
    subst hbeq
    exact hx
  · exact List.mem_append_right _ (List.mem_singleton.mpr rfl)

theorem stepProduct_post {pictureDir : String} {p : Product} {s s' : Sess}
    (h : stepProduct pictureDir p s = .ok s') : productDone pictureDir s'.db s'.fs p := by
  unfold stepProduct at h
  simp only [] at h
  split at h
  · cases h
  · rename_i prodOpt heqOuter
    rcases prodOpt with _ | r
    · simp only [] at h
      split at h
      · cases h
      · rename_i prodRow s1 heq
        clear heqOuter
        rcases addProduct_post heq with ⟨hmem, h1, h2⟩
        have hdir := mkdirStep_mem (prodDirOf pictureDir p.name) s1
        have hcards := loopCards_post h
        have hg : SessGrow (mkdirStep (prodDirOf pictureDir p.name) s1) s' :=
          loopCards_grow_ok h
        have hmem' : prodRow ∈ s'.db.products := by
          refine listGrow_mem hg.db.products ?_
          rw [mkdirStep_db]
          exact hmem
        exact ⟨prodRow, hmem', h1, h2, listGrow_mem hg.fs.dirs hdir, hcards⟩
    · simp only [] at h
      have hfilt := listOneOrNone_eq_some heqOuter
      have hr : r ∈ (logQuery s).db.products ∧
          (r.name == p.name && r.url == p.url) = true := by
        have : r ∈ List.filter (fun q => q.name == p.name && q.url == p.url)
            (logQuery s).db.products := by
          rw [hfilt]
          exact List.mem_singleton.mpr rfl
        exact List.mem_filter.mp this
      rcases hr with ⟨hmem, hpred⟩
      simp only [Bool.and_eq_true, beq_iff_eq] at hpred
      have hdir := mkdirStep_mem (prodDirOf pictureDir p.name) (logQuery s)
      have hcards := loopCards_post h
      have hg : SessGrow (mkdirStep (prodDirOf pictureDir p.name) (logQuery s)) s' :=
        loopCards_grow_ok h
      have hmem' : r ∈ s'.db.products := by
        refine listGrow_mem hg.db.products ?_
        rw [mkdirStep_db]
        exact hmem
      exact ⟨r, hmem', hpred.1, hpred.2, listGrow_mem hg.fs.dirs hdir, hcards⟩

theorem loopProducts_post {pictureDir : String} :
    ∀ {ps : List Product} {s s' : Sess},
      loopProducts pictureDir ps s = .ok s' →
      ∀ p ∈ ps, productDone pictureDir s'.db s'.fs p := by
  intro ps
  induction ps with
  | nil =>
    intro s s' h p hp
    cases hp
  | cons p0 rest ih =>
    intro s s' h p hp
    unfold loopProducts at h
    split at h
    · cases h
    · rename_i s₁ heq
      rcases List.mem_cons.mp hp with rfl | hpr
      · have hg : SessGrow s₁ s' := loopProducts_grow_ok h
        exact productDone_mono hg.db hg.fs (stepProduct_post heq)
      · exact ih h p hpr

/-- After a successful `insert_products`, every product of the batch is
fully present in the resulting store. -/
theorem insert_products_post {pictureDir : String} {ps : List Product} {db : Db} {fs : Fs}
    (h : (insert_products pictureDir ps db fs).err = none) :
    ∀ p ∈ ps, productDone pictureDir (insert_products pictureDir ps db fs).db
      (insert_products pictureDir ps db fs).fs p := by
  intro p hp
  unfold insert_products at h ⊢
  by_cases hps : ps.isEmpty
  · rw [List.isEmpty_iff] at hps
    subst hps
    cases hp
  · rw [if_neg hps] at h ⊢
    cases hmatch : loopProducts pictureDir ps ⟨db, fs, [Effect.openSession]⟩ with
    | ok s =>
      rw [hmatch] at h
      exact loopProducts_post hmatch p hp
    | error es =>
      rcases es with ⟨e, s⟩
      rw [hmatch] at h
      exact Option.noConfusion h

/-! ## Re-running over an already-ingested batch is a no-op -/

theorem mkdirStep_noop {d : String} {s : Sess} (h : d ∈ s.fs.dirs) :
    mkdirStep d s = s := by
  unfold mkdirStep
  rw [if_pos]
  exact List.any_eq_true.mpr ⟨d, h, by simp⟩

theorem priceStep_noop {cardId : Nat} {c : Card} {s : Sess}
    (hpr : ∃ pr ∈ s.db.cardPrices, pr.card_id = cardId ∧ pr.scraped_at = c.scraped_at) :
    priceStep cardId c s = .ok (logQuery s) := by
  rcases hpr with ⟨pr, hm, h1, h2⟩
  have hsome : (s.db.cardPrices.find?
      (fun r => r.card_id == cardId && r.scraped_at == c.scraped_at)).isSome := by
    exact List.find?_isSome.mpr ⟨pr, hm, by simp [h1, h2]⟩
  rcases Option.isSome_iff_exists.mp hsome with ⟨x, hx⟩
  unfold priceStep
  simp only []
  rw [logQuery_db, hx]

theorem stepCard_noop {prodDir : String} {prodId : Nat} {c : Card} {s : Sess}
    (hinv : DbInv s.db) (hdone : cardDone s.db prodId c) :
    ∃ s', stepCard prodDir prodId c s = .ok s' ∧ s'.db = s.db ∧ s'.fs = s.fs := by
  rcases hdone with ⟨cr, hcr, hpid, hname, pr, hpr, hc1, hc2⟩
  have hfilt : List.filter (fun r => r.product_id == prodId && r.name == c.name)
      s.db.cards = [cr] := by
    refine filter_eq_singleton_of_uniqueKey (fun r : CardRow => (r.product_id, r.name))
      hinv.cards hcr (by simp [hpid, hname]) ?_
    intro x hx hpx
    simp only [Bool.and_eq_true, beq_iff_eq] at hpx
    rw [Prod.mk.injEq]
    exact ⟨by rw [hpx.1, hpid], by rw [hpx.2, hname]⟩
  have hstep : stepCard prodDir prodId c s = priceStep cr.id c (logQuery s) := by
    unfold stepCard
    simp only []
    rw [logQuery_db, hfilt]
    rfl
  have hps : priceStep cr.id c (logQuery s) = .ok (logQuery (logQuery s)) := by
    refine priceStep_noop ⟨pr, hpr, ?_, hc2⟩
    rw [hc1]
  exact ⟨logQuery (logQuery s), by rw [hstep, hps], rfl, rfl⟩

theorem loopCards_noop {prodDir : String} {prodId : Nat} :
    ∀ {cs : List Card} {s : Sess},
      DbInv s.db → (∀ c ∈ cs, cardDone s.db prodId c) →
      ∃ s', loopCards prodDir prodId cs s = .ok s' ∧ s'.db = s.db ∧ s'.fs = s.fs := by
  intro cs
  induction cs with
  | nil =>
    intro s hinv hall
    exact ⟨s, rfl, rfl, rfl⟩
  | cons c rest ih =>
    intro s hinv hall
    rcases stepCard_noop hinv (hall c (List.mem_cons_self c rest)) with ⟨s₁, h₁, hdb₁, hfs₁⟩
    have hinv₁ : DbInv s₁.db := by
      rw [hdb₁]
      exact hinv
    have hall₁ : ∀ c' ∈ rest, cardDone s₁.db prodId c' := by
      intro c' hc'
      rw [hdb₁]
      exact hall c' (List.mem_cons_of_mem _ hc')
    rcases ih hinv₁ hall₁ with ⟨s₂, h₂, hdb₂, hfs₂⟩
    refine ⟨s₂, ?_, by rw [hdb₂, hdb₁], by rw [hfs₂, hfs₁]⟩
    unfold loopCards
    rw [h₁]
    exact h₂

theorem stepProduct_noop {pictureDir : String} {p : Product} {s : Sess}
    (hinv : DbInv s.db) (hdone : productDone pictureDir s.db s.fs p) :
    ∃ s', stepProduct pictureDir p s = .ok s' ∧ s'.db = s.db ∧ s'.fs = s.fs := by
  rcases hdone with ⟨r, hr, h1, h2, hdir, hcards⟩
  have hfilt : List.filter (fun q => q.name == p.name && q.url == p.url)
      s.db.products = [r] := by
    refine filter_eq_singleton_of_uniqueKey (fun q : ProductRow => q.name)
      hinv.products hr (by simp [h1, h2]) ?_
    intro x hx hpx
    simp only [Bool.and_eq_true, beq_iff_eq] at hpx
    show x.name = r.name
    rw [hpx.1, h1]
  have hmk : mkdirStep (prodDirOf pictureDir p.name) (logQuery s) = logQuery s :=
    mkdirStep_noop hdir
  have hstep : stepProduct pictureDir p s =
      loopCards (prodDirOf pictureDir p.name) r.id p.cards (logQuery s) := by
    unfold stepProduct
    simp only []
    rw [logQuery_db, hfilt]
    show loopCards (prodDirOf pictureDir p.name) r.id p.cards
        (mkdirStep (prodDirOf pictureDir p.name) (logQuery s)) = _
    rw [hmk]
  have hinv' : DbInv (logQuery s).db := hinv
  have hall' : ∀ c ∈ p.cards, cardDone (logQuery s).db r.id c := hcards
  rcases loopCards_noop hinv' hall' with ⟨s₂, h₂, hdb₂, hfs₂⟩
  exact ⟨s₂, by rw [hstep]; exact h₂, hdb₂, hfs₂⟩

theorem loopProducts_noop {pictureDir : String} :
    ∀ {ps : List Product} {s : Sess},
      DbInv s.db → (∀ p ∈ ps, productDone pictureDir s.db s.fs p) →
      ∃ s', loopProducts pictureDir ps s = .ok s' ∧ s'.db = s.db ∧ s'.fs = s.fs := by
  intro ps
  induction ps with
  | nil =>
    intro s hinv hall
    exact ⟨s, rfl, rfl, rfl⟩
  | cons p rest ih =>
    intro s hinv hall
    rcases stepProduct_noop hinv (hall p (List.mem_cons_self p rest)) with ⟨s₁, h₁, hdb₁, hfs₁⟩
    have hinv₁ : DbInv s₁.db := by
      rw [hdb₁]
      exact hinv
    have hall₁ : ∀ p' ∈ rest, productDone pictureDir s₁.db s₁.fs p' := by
      intro p' hp'
      rw [hdb₁, hfs₁]
      exact hall p' (List.mem_cons_of_mem _ hp')
    rcases ih hinv₁ hall₁ with ⟨s₂, h₂, hdb₂, hfs₂⟩
    refine ⟨s₂, ?_, by rw [hdb₂, hdb₁], by rw [hfs₂, hfs₁]⟩
    unfold loopProducts
    rw [h₁]
    exact h₂

/-- A second run of `insert_products` on the state a successful run
produced changes neither the database nor the asset store and succeeds. -/
theorem insert_products_idem {pictureDir : String} {ps : List Product} {db : Db} {fs : Fs}
    (hinv : DbInv db) (hok : (insert_products pictureDir ps db fs).err = none) :
    (insert_products pictureDir ps
        (insert_products pictureDir ps db fs).db
        (insert_products pictureDir ps db fs).fs).db =
      (insert_products pictureDir ps db fs).db ∧
    (insert_products pictureDir ps
        (insert_products pictureDir ps db fs).db
        (insert_products pictureDir ps db fs).fs).fs =
      (insert_products pictureDir ps db fs).fs ∧
    (insert_products pictureDir ps
        (insert_products pictureDir ps db fs).db
        (insert_products pictureDir ps db fs).fs).err = none := by
  have hpost := insert_products_post hok
  have hinv' : DbInv (insert_products pictureDir ps db fs).db :=
    insert_products_inv pictureDir ps db fs hinv
  set r := insert_products pictureDir ps db fs with hr
  unfold insert_products
  by_cases hps : ps.isEmpty
  · rw [if_pos hps]
    exact ⟨rfl, rfl, rfl⟩
  · rw [if_neg hps]
    have hall : ∀ p ∈ ps, productDone pictureDir
        (Sess.mk r.db r.fs [Effect.openSession]).db
        (Sess.mk r.db r.fs [Effect.openSession]).fs p := hpost
    rcases loopProducts_noop hinv' hall with ⟨s₂, h₂, hdb₂, hfs₂⟩
    rw [h₂]
    exact ⟨hdb₂, hfs₂, rfl⟩

/-- Ingesting the same single-card product twice with two different dates
leaves exactly two observation rows: one per date, both with the harvested
price and quantity. -/
theorem insert_twice_two_dates (pictureDir pn pu cn crar cu num ft colr : String)
    (img : ImageBytes) (pr qt : Int) (d₁ d₂ : Nat) (hne : d₁ ≠ d₂) :
    (insert_products pictureDir [⟨pn, pu, [⟨cn, crar, cu, img, num, pr, qt, ft, colr, d₁⟩]⟩]
        emptyDb emptyFs).err = none ∧
    (insert_products pictureDir [⟨pn, pu, [⟨cn, crar, cu, img, num, pr, qt, ft, colr, d₂⟩]⟩]
        (insert_products pictureDir [⟨pn, pu, [⟨cn, crar, cu, img, num, pr, qt, ft, colr, d₁⟩]⟩]
          emptyDb emptyFs).db
        (insert_products pictureDir [⟨pn, pu, [⟨cn, crar, cu, img, num, pr, qt, ft, colr, d₁⟩]⟩]
          emptyDb emptyFs).fs).err = none ∧
    (insert_products pictureDir [⟨pn, pu, [⟨cn, crar, cu, img, num, pr, qt, ft, colr, d₂⟩]⟩]
        (insert_products pictureDir [⟨pn, pu, [⟨cn, crar, cu, img, num, pr, qt, ft, colr, d₁⟩]⟩]
          emptyDb emptyFs).db
        (insert_products pictureDir [⟨pn, pu, [⟨cn, crar, cu, img, num, pr, qt, ft, colr, d₁⟩]⟩]
          emptyDb emptyFs).fs).db.cardPrices =
      [⟨1, 1, pr, qt, d₁⟩, ⟨2, 1, pr, qt, d₂⟩] := by
  have h12 : (d₁ == d₂) = false := beq_eq_false_iff_ne.mpr hne
  have h21 : (d₂ == d₁) = false := beq_eq_false_iff_ne.mpr (Ne.symm hne)
  by_cases himg : img.isEmpty
  · simp [insert_products, loopProducts, stepProduct, loopCards, stepCard, getRarity,
      priceStep, addProduct, addRarity, addCardRow, addPriceRow, logQuery, mkdirStep,
      writeAsset, listOneOrNone, emptyDb, emptyFs, himg, h12, h21]
  · simp [insert_products, loopProducts, stepProduct, loopCards, stepCard, getRarity,
      priceStep, addProduct, addRarity, addCardRow, addPriceRow, logQuery, mkdirStep,
      writeAsset, listOneOrNone, emptyDb, emptyFs, himg, h12, h21]

/-! ## Counting accepted records and progress lines of the harvester -/

theorem collectLoop_snd_length (futures : List (Option Card)) (total : Nat) :
    ∀ (order : List Nat) (idx : Nat),
      (collectLoop futures total order idx).2.length = order.length := by
  intro order
  induction order with
  | nil => intro idx; rfl
  | cons i rest ih =>
    intro idx
    unfold collectLoop
    cases futures.getD i none <;> simp [ih]

theorem collectLoop_fst_length (futures : List (Option Card)) (total : Nat) :
    ∀ (order : List Nat) (idx : Nat),
      (collectLoop futures total order idx).1.length =
        order.countP (fun i => (futures.getD i none).isSome) := by
  intro order
  induction order with
  | nil => intro idx; rfl
  | cons i rest ih =>
    intro idx
    unfold collectLoop
    rw [List.countP_cons]
    cases hv : futures.getD i none <;> simp [ih, hv]

theorem collectLoop_fst_mem {futures : List (Option Card)} {total : Nat} :
    ∀ {order : List Nat} {idx : Nat} {c : Card},
      c ∈ (collectLoop futures total order idx).1 → some c ∈ futures := by
  intro order
  induction order with
  | nil => intro idx c hc; cases hc
  | cons i rest ih =>
    intro idx c hc
    unfold collectLoop at hc
    cases hv : futures.getD i none with
    | none =>
      rw [hv] at hc
      exact ih hc
    | some c0 =>
      rw [hv] at hc
      rcases List.mem_cons.mp hc with rfl | hc'
      · exact getD_eq_some_mem hv
      · exact ih hc'

theorem worker_none_of_fetch_fail {fetch : String → Option DetailPage} {today : Nat}
    {fetchImage : String → Option ImageBytes} {e : Entry}
    (h : fetch e.url = none) : worker fetch today fetchImage e = none := by
  unfold worker
  rw [h]

theorem worker_rarity {fetch : String → Option DetailPage} {today : Nat}
    {fetchImage : String → Option ImageBytes} {e : Entry} {c : Card}
    (h : worker fetch today fetchImage e = some c) : c.rarity = e.rarity := by
  unfold worker at h
  split at h
  · cases h
  · simp only [] at h
    split at h
    · cases h
    · simp only [Option.some.injEq] at h
      subst h
      rfl

/-! ## Rarity filtering facts -/

theorem collectEntries_cons (g : CardGroup) (t : List CardGroup) :
    collectEntries (g :: t) = groupEntries g ++ collectEntries t := by
  simp [collectEntries]

theorem groupEntries_excluded {g : CardGroup}
    (h : excludedRarity (g.rarityText.getD "") = true) : groupEntries g = [] := by
  unfold groupEntries
  simp [h]

theorem groupEntries_rarity {g : CardGroup} {e : Entry} (he : e ∈ groupEntries g) :
    e.rarity = g.rarityText.getD "" ∧ excludedRarity (g.rarityText.getD "") = false := by
  unfold groupEntries at he
  simp only [] at he
  split at he
  · cases he
  · rename_i hexc
    rw [Bool.not_eq_true] at hexc
    refine ⟨?_, hexc⟩
    rcases List.mem_flatten.mp he with ⟨l1, hl1, hel1⟩
    rcases List.mem_map.mp hl1 with ⟨row, hrow, rfl⟩
    rcases List.mem_flatten.mp hel1 with ⟨l2, hl2, hel2⟩
    rcases List.mem_map.mp hl2 with ⟨col, hcol, rfl⟩
    unfold colEntries at hel2
    split at hel2
    · cases hel2
    · rcases List.mem_singleton.mp hel2 with rfl
      rfl

/-- Collecting entries over all groups equals collecting them over the
non-excluded groups only: excluded groups contribute nothing. -/
theorem collectEntries_eq_filter (groups : List CardGroup) :
    collectEntries groups =
      collectEntries (groups.filter (fun g => !excludedRarity (g.rarityText.getD ""))) := by
  induction groups with
  | nil => rfl
  | cons g t ih =>
    rw [collectEntries_cons]
    cases hexc : excludedRarity (g.rarityText.getD "") with
    | true =>
      rw [groupEntries_excluded hexc, List.filter_cons_of_neg (by simp [hexc]), List.nil_append]
      exact ih
    | false =>
      rw [List.filter_cons_of_pos (by simp [hexc]), collectEntries_cons, ih]

theorem collectEntries_not_excluded {groups : List CardGroup} {e : Entry}
    (he : e ∈ collectEntries groups) : excludedRarity e.rarity = false := by
  induction groups with
  | nil => cases he
  | cons g t ih =>
    rw [collectEntries_cons] at he
    rcases List.mem_append.mp he with hg | ht
    · rcases groupEntries_rarity hg with ⟨h1, h2⟩
      rw [h1]
      exact h2
    · exact ih ht

/-! ## File hygiene of the ingestion run -/

/-- Every file of `f₂` was either already in `f₁` or was written with
non-empty bytes. -/
def filesClean (f₁ f₂ : Fs) : Prop :=
  ∀ pb : String × ImageBytes, pb ∈ f₂.files → pb ∈ f₁.files ∨ pb.2 ≠ []

theorem filesClean_refl (f : Fs) : filesClean f f := fun _pb h => Or.inl h

theorem filesClean_of_eq {f₁ f₂ : Fs} (h : f₁ = f₂) : filesClean f₁ f₂ :=
  h ▸ filesClean_refl f₁

theorem filesClean_trans {f₁ f₂ f₃ : Fs} (h₁ : filesClean f₁ f₂) (h₂ : filesClean f₂ f₃) :
    filesClean f₁ f₃ := by
  intro pb hpb
  rcases h₂ pb hpb with h | h
  · exact h₁ pb h
  · exact Or.inr h

theorem mkdirStep_files (d : String) (s : Sess) : (mkdirStep d s).fs.files = s.fs.files := by
  unfold mkdirStep
  split <;> rfl

theorem writeAsset_filesClean (prodDir : String) (c : Card) (s : Sess) :
    filesClean s.fs (writeAsset prodDir c s).fs := by
  unfold writeAsset
  split
  · exact filesClean_refl _
  · rename_i himg
    split
    · exact filesClean_refl _
    · intro pb hpb
      rcases List.mem_append.mp hpb with h | h
      · exact Or.inl h
      · rcases List.mem_singleton.mp h with rfl
        refine Or.inr ?_
        simpa [List.isEmpty_iff] using himg

theorem addProduct_fs_ok {p : Product} {s : Sess} {r : ProductRow} {s' : Sess}
    (h : addProduct p s = .ok (r, s')) : s'.fs = s.fs := by
  unfold addProduct at h
  split at h
  · cases h
  · simp only [Except.ok.injEq, Prod.mk.injEq] at h
    rcases h with ⟨-, rfl⟩
    rfl

theorem addRarity_fs_ok {name : String} {s : Sess} {r : RarityRow} {s' : Sess}
    (h : addRarity name s = .ok (r, s')) : s'.fs = s.fs := by
  unfold addRarity at h
  split at h
  · cases h
  · simp only [Except.ok.injEq, Prod.mk.injEq] at h
    rcases h with ⟨-, rfl⟩
    rfl

theorem addCardRow_fs_ok {prodId rarId : Nat} {c : Card} {s : Sess} {r : CardRow} {s' : Sess}
    (h : addCardRow prodId rarId c s = .ok (r, s')) : s'.fs = s.fs := by
  unfold addCardRow at h
  split at h
  · cases h
  · simp only [Except.ok.injEq, Prod.mk.injEq] at h
    rcases h with ⟨-, rfl⟩
    rfl

theorem addCardRow_fs_err {prodId rarId : Nat} {c : Card} {s : Sess} {e : DbError} {s' : Sess}
    (h : addCardRow prodId rarId c s = .error (e, s')) : s'.fs = s.fs := by
  unfold addCardRow at h
  split at h
  · simp only [Except.error.injEq, Prod.mk.injEq] at h
    rcases h with ⟨-, rfl⟩
    rfl
  · cases h

theorem addPriceRow_fs_ok {cardId : Nat} {c : Card} {s : Sess} {r : CardPriceRow} {s' : Sess}
    (h : addPriceRow cardId c s = .ok (r, s')) : s'.fs = s.fs := by
  unfold addPriceRow at h
  split at h
  · cases h
  · simp only [Except.ok.injEq, Prod.mk.injEq] at h
    rcases h with ⟨-, rfl⟩
    rfl

theorem addPriceRow_fs_err {cardId : Nat} {c : Card} {s : Sess} {e : DbError} {s' : Sess}
    (h : addPriceRow cardId c s = .error (e, s')) : s'.fs = s.fs := by
  unfold addPriceRow at h
  split at h
  · simp only [Except.error.injEq, Prod.mk.injEq] at h
    rcases h with ⟨-, rfl⟩
    rfl
  · cases h

theorem getRarity_fs_ok {c : Card} {s : Sess} {r : RarityRow} {s' : Sess}
    (h : getRarity c s = .ok (r, s')) : s'.fs = s.fs := by
  unfold getRarity at h
  simp only [] at h
  split at h
  · cases h
  · simp only [Except.ok.injEq, Prod.mk.injEq] at h
    rcases h with ⟨-, rfl⟩
    rfl
  · rw [addRarity_fs_ok h]
    rfl

theorem getRarity_fs_err {c : Card} {s : Sess} {e : DbError} {s' : Sess}
    (h : getRarity c s = .error (e, s')) : s'.fs = s.fs := by
  unfold getRarity at h
  simp only [] at h
  split at h
  · simp only [Except.error.injEq, Prod.mk.injEq] at h
    rcases h with ⟨-, rfl⟩
    rfl
  · cases h
  · unfold addRarity at h
    split at h
    · simp only [Except.error.injEq, Prod.mk.injEq] at h
      rcases h with ⟨-, rfl⟩
      rfl
    · cases h

theorem priceStep_fs_ok {cardId : Nat} {c : Card} {s s' : Sess}
    (h : priceStep cardId c s = .ok s') : s'.fs = s.fs := by
  unfold priceStep at h
  simp only [] at h
  split at h
  · simp only [Except.ok.injEq] at h
    subst h
    rfl
  · split at h
    · cases h
    · rename_i heq
      simp only [Except.ok.injEq] at h
      subst h
      rw [addPriceRow_fs_ok heq]
      rfl

theorem priceStep_fs_err {cardId : Nat} {c : Card} {s : Sess} {e : DbError} {s' : Sess}
    (h : priceStep cardId c s = .error (e, s')) : s'.fs = s.fs := by
  unfold priceStep at h
  simp only [] at h
  split at h
  · cases h
  · split at h
    · rename_i es heq
      rcases es with ⟨e2, s2e⟩
      simp only [Except.error.injEq, Prod.mk.injEq] at h
      rcases h with ⟨rfl, rfl⟩
      rw [addPriceRow_fs_err heq]
      rfl
    · cases h

theorem stepCard_filesClean_ok {prodDir : String} {prodId : Nat} {c : Card} {s s' : Sess}
    (h : stepCard prodDir prodId c s = .ok s') : filesClean s.fs s'.fs := by
  unfold stepCard at h
  simp only [] at h
  split at h
  · cases h
  · rw [priceStep_fs_ok h]
    exact filesClean_refl _
  · split at h
    · cases h
    · rename_i rarObj s1 heq
      split at h
      · cases h
      · rename_i cardRow s3 heq2
        have h1 : s1.fs = s.fs := by
          rw [getRarity_fs_ok heq]
          rfl
        have h2 : s'.fs = (writeAsset prodDir c s1).fs := by
          rw [priceStep_fs_ok h, addCardRow_fs_ok heq2]
        rw [h2]
        have hw := writeAsset_filesClean prodDir c s1
        rw [h1] at hw
        exact hw

theorem stepCard_filesClean_err {prodDir : String} {prodId : Nat} {c : Card} {s : Sess}
    {e : DbError} {s' : Sess}
    (h : stepCard prodDir prodId c s = .error (e, s')) : filesClean s.fs s'.fs := by
  unfold stepCard at h
  simp only [] at h
  split at h
  · simp only [Except.error.injEq, Prod.mk.injEq] at h
    rcases h with ⟨-, rfl⟩
    exact filesClean_refl _
  · rw [priceStep_fs_err h]
    exact filesClean_refl _
  · split at h
    · rename_i es heq
      rcases es with ⟨e2, s2e⟩
      simp only [Except.error.injEq, Prod.mk.injEq] at h
      rcases h with ⟨rfl, rfl⟩
      rw [getRarity_fs_err heq]
      exact filesClean_refl _
    · rename_i rarObj s1 heq
      have h1 : s1.fs = s.fs := by
        rw [getRarity_fs_ok heq]
        rfl
      have hw := writeAsset_filesClean prodDir c s1
      rw [h1] at hw
      split at h
      · rename_i es heq2
        rcases es with ⟨e2, s2e⟩
        simp only [Except.error.injEq, Prod.mk.injEq] at h
        rcases h with ⟨rfl, rfl⟩
        rw [addCardRow_fs_err heq2]
        exact hw
      · rename_i cardRow s3 heq2
        have h2 : s'.fs = (writeAsset prodDir c s1).fs := by
          rw [priceStep_fs_err h, addCardRow_fs_ok heq2]
        rw [h2]
        exact hw

theorem loopCards_filesClean_ok {prodDir : String} {prodId : Nat} :
    ∀ {cs : List Card} {s s' : Sess},
      loopCards prodDir prodId cs s = .ok s' → filesClean s.fs s'.fs := by
  intro cs
  induction cs with
  | nil =>
    intro s s' h
    unfold loopCards at h
    simp only [Except.ok.injEq] at h
    subst h
    exact filesClean_refl _
  | cons c rest ih =>
    intro s s' h
    unfold loopCards at h
    split at h
    · cases h
    · rename_i s₁ heq
      exact filesClean_trans (stepCard_filesClean_ok heq) (ih h)

theorem loopCards_filesClean_err {prodDir : String} {prodId : Nat} :
    ∀ {cs : List Card} {s : Sess} {e : DbError} {s' : Sess},
      loopCards prodDir prodId cs s = .error (e, s') → filesClean s.fs s'.fs := by
  intro cs
  induction cs with
  | nil =>
    intro s e s' h
    unfold loopCards at h
    cases h
  | cons c rest ih =>
    intro s e s' h
    unfold loopCards at h
    split at h
    · rename_i es heq
      rcases es with ⟨e2, s2e⟩
      simp only [Except.error.injEq, Prod.mk.injEq] at h
      rcases h with ⟨rfl, rfl⟩
      exact stepCard_filesClean_err heq
    · rename_i s₁ heq
      exact filesClean_trans (stepCard_filesClean_ok heq) (ih h)

theorem stepProduct_filesClean_ok {pictureDir : String} {p : Product} {s s' : Sess}
    (h : stepProduct pictureDir p s = .ok s') : filesClean s.fs s'.fs := by
  unfold stepProduct at h
  simp only [] at h
  split at h
  · cases h
  · rename_i prodOpt heqOuter
    clear heqOuter
    rcases prodOpt with _ | r
    · simp only [] at h
      split at h
      · cases h
      · rename_i prodRow s1 heq
        have hc := loopCards_filesClean_ok h
        have h1 : filesClean s.fs (mkdirStep (prodDirOf pictureDir p.name) s1).fs := by
          intro pb hpb
          rw [mkdirStep_files] at hpb
          rw [addProduct_fs_ok heq] at hpb
          exact Or.inl hpb
        exact filesClean_trans h1 hc
    · simp only [] at h
      have hc := loopCards_filesClean_ok h
      have h1 : filesClean s.fs
          (mkdirStep (prodDirOf pictureDir p.name) (logQuery s)).fs := by
        intro pb hpb
        rw [mkdirStep_files] at hpb
        exact Or.inl hpb
      exact filesClean_trans h1 hc

theorem stepProduct_filesClean_err {pictureDir : String} {p : Product} {s : Sess}
    {e : DbError} {s' : Sess}
    (h : stepProduct pictureDir p s = .error (e, s')) : filesClean s.fs s'.fs := by
  unfold stepProduct at h
  simp only [] at h
  split at h
  · simp only [Except.error.injEq, Prod.mk.injEq] at h
    rcases h with ⟨-, rfl⟩
    exact filesClean_refl _
  · rename_i prodOpt heqOuter
    clear heqOuter
    rcases prodOpt with _ | r
    · simp only [] at h
      split at h
      · rename_i es heq
        rcases es with ⟨e2, s2e⟩
        simp only [Except.error.injEq, Prod.mk.injEq] at h
        rcases h with ⟨rfl, rfl⟩
        unfold addProduct at heq
        split at heq
        · simp only [Except.error.injEq, Prod.mk.injEq] at heq
          rcases heq with ⟨-, rfl⟩
          exact filesClean_refl _
        · cases heq
      · rename_i prodRow s1 heq
        have hc := loopCards_filesClean_err h
        have h1 : filesClean s.fs (mkdirStep (prodDirOf pictureDir p.name) s1).fs := by
          intro pb hpb
          rw [mkdirStep_files] at hpb
          rw [addProduct_fs_ok heq] at hpb
          exact Or.inl hpb
        exact filesClean_trans h1 hc
    · simp only [] at h
      have hc := loopCards_filesClean_err h
      have h1 : filesClean s.fs
          (mkdirStep (prodDirOf pictureDir p.name) (logQuery s)).fs := by
        intro pb hpb
        rw [mkdirStep_files] at hpb
        exact Or.inl hpb
      exact filesClean_trans h1 hc

theorem loopProducts_filesClean_ok {pictureDir : String} :
    ∀ {ps : List Product} {s s' : Sess},
      loopProducts pictureDir ps s = .ok s' → filesClean s.fs s'.fs := by
  intro ps
  induction ps with
  | nil =>
    intro s s' h
    unfold loopProducts at h
    simp only [Except.ok.injEq] at h
    subst h
    exact filesClean_refl _
  | cons p rest ih =>
    intro s s' h
    unfold loopProducts at h
    split at h
    · cases h
    · rename_i s₁ heq
      exact filesClean_trans (stepProduct_filesClean_ok heq) (ih h)

theorem loopProducts_filesClean_err {pictureDir : String} :
    ∀ {ps : List Product} {s : Sess} {e : DbError} {s' : Sess},
      loopProducts pictureDir ps s = .error (e, s') → filesClean s.fs s'.fs := by
  intro ps
  induction ps with
  | nil =>
    intro s e s' h
    unfold loopProducts at h
    cases h
  | cons p rest ih =>
    intro s e s' h
    unfold loopProducts at h
    split at h
    · rename_i es heq
      rcases es with ⟨e2, s2e⟩
      simp only [Except.error.injEq, Prod.mk.injEq] at h
      rcases h with ⟨rfl, rfl⟩
      exact stepProduct_filesClean_err heq
    · rename_i s₁ heq
      exact filesClean_trans (stepProduct_filesClean_ok heq) (ih h)

/-- Every file an `insert_products` call leaves behind was already present
before the call or holds non-empty bytes: the store never writes an empty
image file. -/
theorem insert_products_filesClean (pictureDir : String) (ps : List Product)
    (db : Db) (fs : Fs) : filesClean fs (insert_products pictureDir ps db fs).fs := by
  unfold insert_products
  by_cases hps : ps.isEmpty
  · rw [if_pos hps]
    exact filesClean_refl fs
  · rw [if_neg hps]
    cases hmatch : loopProducts pictureDir ps ⟨db, fs, [Effect.openSession]⟩ with
    | ok s => exact loopProducts_filesClean_ok hmatch
    | error es =>
      rcases es with ⟨e, s⟩
      exact loopProducts_filesClean_err hmatch

/-- With an empty image the asset write is a no-op. -/
theorem writeAsset_empty {c : Card} (himg : c.image = []) (prodDir : String) (s : Sess) :
    writeAsset prodDir c s = s := by
  unfold writeAsset
  rw [if_pos]
  rw [himg]
  rfl

/-- Processing a card whose harvested image is empty never touches the
file store, on the success path and on the failure path alike. -/
theorem stepCard_empty_image_files {prodDir : String} {prodId : Nat} {c : Card} {s : Sess}
    (himg : c.image = []) :
    (∀ s', stepCard prodDir prodId c s = .ok s' → s'.fs.files = s.fs.files) ∧
    (∀ e s', stepCard prodDir prodId c s = .error (e, s') → s'.fs.files = s.fs.files) := by
  constructor
  · intro s' h
    unfold stepCard at h
    simp only [] at h
    split at h
    · cases h
    · rw [priceStep_fs_ok h]
      rfl
    · split at h
      · cases h
      · rename_i rarObj s1 heq
        rw [writeAsset_empty himg] at h
        split at h
        · cases h
        · rename_i cardRow s3 heq2
          rw [priceStep_fs_ok h, addCardRow_fs_ok heq2, getRarity_fs_ok heq]
          rfl
  · intro e s' h
    unfold stepCard at h
    simp only [] at h
    split at h
    · simp only [Except.error.injEq, Prod.mk.injEq] at h
      rcases h with ⟨-, rfl⟩
      rfl
    · rw [priceStep_fs_err h]
      rfl
    · split at h
      · rename_i es heq
        rcases es with ⟨e2, s2e⟩
        simp only [Except.error.injEq, Prod.mk.injEq] at h
        rcases h with ⟨rfl, rfl⟩
        rw [getRarity_fs_err heq]
        rfl
      · rename_i rarObj s1 heq
        rw [writeAsset_empty himg] at h
        split at h
        · rename_i es heq2
          rcases es with ⟨e2, s2e⟩
          simp only [Except.error.injEq, Prod.mk.injEq] at h
          rcases h with ⟨rfl, rfl⟩
          rw [addCardRow_fs_err heq2, getRarity_fs_ok heq]
          rfl
        · rename_i cardRow s3 heq2
          rw [priceStep_fs_err h, addCardRow_fs_ok heq2, getRarity_fs_ok heq]
          rfl

/-! ## Concrete fixtures used by witnesses and counterexamples -/

/-- A representative harvested card. -/
def wCard : Card :=
  ⟨"Card One", "R", "http://c", [1, 2], "OP01-001", 500, 3, "feat", "red", 7⟩

/-- A representative product batch of one card. -/
def wProduct : Product := ⟨"Booster Alpha", "http://x", [wCard]⟩

/-- A card with an image, under the product named `prodA`. -/
def cA : Card := ⟨"cardA", "R", "u", [7], "N1", 100, 1, "", "", 5⟩

/-- First product of the failing batch. -/
def pA : Product := ⟨"prodA", "u1", [cA]⟩

/-- Second product of the failing batch: same name as `pA`, different url,
so its insert violates the unique constraint on `product.name`. -/
def pBad : Product := ⟨"prodA", "u2", []⟩

/-- A category with url `u1`. -/
def pA1 : Product := ⟨"A", "u1", []⟩

/-- A category sharing `pA1`'s name with a different url. -/
def pA2 : Product := ⟨"A", "u2", []⟩

/-- A detail page carrying only a catalog number. -/
def wPage : DetailPage := ⟨some ⟨none, some ⟨none, [⟨some "N1", none, none⟩]⟩⟩⟩

/-- A fetch oracle that succeeds only on `okurl`. -/
def wFetch : String → Option DetailPage := fun u => if u == "okurl" then some wPage else none

/-- An image oracle that always fails. -/
def wImgFetch : String → Option ImageBytes := fun _ => none

/-- One card-list group of rarity `R` with two card links. -/
def wGroups : List CardGroup :=
  [⟨some "R", [⟨[⟨some "okurl", some "Card"⟩, ⟨some "badurl", some "Card2"⟩]⟩]⟩]

/-! ## The claims -/

/-- C1: ingestion is idempotent per calendar date.  From any state
satisfying the store's uniqueness invariant, after a successful
`insert_products` call (1) repeating the identical call changes neither
the database nor the asset store and succeeds — a second same-date harvest
is a no-op, never an overwrite, so harvested prices and quantities stay
unchanged; (2) the resulting store has at most one observation row per
`(card, date)`; (3) every product and card of the batch, with its dated
observation, is present; and (4) ingesting the same single-card product
under two different dates leaves exactly two observation rows, one per
date, each with the originally harvested price and quantity. -/
theorem c1_ingest_idempotent_per_date (pictureDir : String) (ps : List Product)
    (db : Db) (fs : Fs) (hinv : DbInv db)
    (hok : (insert_products pictureDir ps db fs).err = none) :
    ((insert_products pictureDir ps
        (insert_products pictureDir ps db fs).db
        (insert_products pictureDir ps db fs).fs).db =
      (insert_products pictureDir ps db fs).db ∧
     (insert_products pictureDir ps
        (insert_products pictureDir ps db fs).db
        (insert_products pictureDir ps db fs).fs).fs =
      (insert_products pictureDir ps db fs).fs ∧
     (insert_products pictureDir ps
        (insert_products pictureDir ps db fs).db
        (insert_products pictureDir ps db fs).fs).err = none) ∧
    uniqueKeys (fun r : CardPriceRow => (r.card_id, r.scraped_at))
      (insert_products pictureDir ps db fs).db.cardPrices ∧
    (∀ p ∈ ps, productDone pictureDir (insert_products pictureDir ps db fs).db
      (insert_products pictureDir ps db fs).fs p) ∧
    (∀ (pn pu cn crar cu num ft colr : String) (img : ImageBytes) (pr qt : Int)
        (d₁ d₂ : Nat), d₁ ≠ d₂ →
      (insert_products pictureDir [⟨pn, pu, [⟨cn, crar, cu, img, num, pr, qt, ft, colr, d₁⟩]⟩]
          emptyDb emptyFs).err = none ∧
      (insert_products pictureDir [⟨pn, pu, [⟨cn, crar, cu, img, num, pr, qt, ft, colr, d₂⟩]⟩]
          (insert_products pictureDir
            [⟨pn, pu, [⟨cn, crar, cu, img, num, pr, qt, ft, colr, d₁⟩]⟩] emptyDb emptyFs).db
          (insert_products pictureDir
            [⟨pn, pu, [⟨cn, crar, cu, img, num, pr, qt, ft, colr, d₁⟩]⟩] emptyDb emptyFs).fs).err =
        none ∧
      (insert_products pictureDir [⟨pn, pu, [⟨cn, crar, cu, img, num, pr, qt, ft, colr, d₂⟩]⟩]
          (insert_products pictureDir
            [⟨pn, pu, [⟨cn, crar, cu, img, num, pr, qt, ft, colr, d₁⟩]⟩] emptyDb emptyFs).db
          (insert_products pictureDir
            [⟨pn, pu, [⟨cn, crar, cu, img, num, pr, qt, ft, colr, d₁⟩]⟩] emptyDb
            emptyFs).fs).db.cardPrices =
        [⟨1, 1, pr, qt, d₁⟩, ⟨2, 1, pr, qt, d₂⟩]) := by
  refine ⟨insert_products_idem hinv hok,
    (insert_products_inv pictureDir ps db fs hinv).cardPrices,
    insert_products_post hok, ?_⟩
  intro pn pu cn crar cu num ft colr img pr qt d₁ d₂ hne
  exact insert_twice_two_dates pictureDir pn pu cn crar cu num ft colr img pr qt d₁ d₂ hne

/-- Witness for C1: a concrete batch ingested twice stays unchanged, and a
concrete single-card product ingested under dates 0 and 1 ends with
exactly the two expected observation rows. -/
theorem c1_ingest_idempotent_per_date_witness :
    (insert_products "pic" [wProduct]
        (insert_products "pic" [wProduct] emptyDb emptyFs).db
        (insert_products "pic" [wProduct] emptyDb emptyFs).fs).err = none ∧
    (insert_products "pic" [⟨"P", "U", [⟨"C", "R", "cu", [], "N", 9, 2, "f", "c", 1⟩]⟩]
        (insert_products "pic" [⟨"P", "U", [⟨"C", "R", "cu", [], "N", 9, 2, "f", "c", 0⟩]⟩]
          emptyDb emptyFs).db
        (insert_products "pic" [⟨"P", "U", [⟨"C", "R", "cu", [], "N", 9, 2, "f", "c", 0⟩]⟩]
          emptyDb emptyFs).fs).db.cardPrices =
      [⟨1, 1, 9, 2, 0⟩, ⟨2, 1, 9, 2, 1⟩] :=
  ⟨(c1_ingest_idempotent_per_date "pic" [wProduct] emptyDb emptyFs dbInv_empty
      (by decide)).1.2.2,
   ((c1_ingest_idempotent_per_date "pic" [wProduct] emptyDb emptyFs dbInv_empty
      (by decide)).2.2.2 "P" "U" "C" "R" "cu" "N" "f" "c" [] 9 2 0 1 (by decide)).2.2⟩

/-- C2 counterexample: a mid-batch failure does not undo the asset write.
The batch `[pA, pBad]` fails on its second product (same category name,
different url, violating the unique constraint on `product.name`): the
database rolls back to its initial state, yet `pA`'s card image file,
written before the failure, remains on disk — refuting the claim that on a
mid-batch failure none of the writes (including the item asset) takes
effect. -/
theorem c2_asset_not_transactional_counterexample :
    (insert_products "pic" [pA, pBad] emptyDb emptyFs).err =
      some DbError.uniqueViolation ∧
    (insert_products "pic" [pA, pBad] emptyDb emptyFs).db = emptyDb ∧
    (insert_products "pic" [pA, pBad] emptyDb emptyFs).fs.files =
      [("pic/prodA/cardA.jpg", [7])] := by
  refine ⟨by decide, by decide, by decide⟩

/-- C2 (amended): each `insert_products` call is atomic for the table rows
only — when the call fails, the database is returned exactly as it was at
call time (the whole batch of Category, Item, RarityTag and Observation
rows rolls back); asset files and directories written before the failure
are not rolled back. -/
theorem c2_row_writes_atomic (pictureDir : String) (ps : List Product) (db : Db)
    (fs : Fs) (e : DbError)
    (herr : (insert_products pictureDir ps db fs).err = some e) :
    (insert_products pictureDir ps db fs).db = db :=
  insert_products_db_rollback herr

/-- Witness for the amended C2 at the concrete failing batch. -/
theorem c2_row_writes_atomic_witness :
    (insert_products "pic" [pA, pBad] emptyDb emptyFs).db = emptyDb :=
  c2_row_writes_atomic "pic" [pA, pBad] emptyDb emptyFs DbError.uniqueViolation (by decide)

/-- C3: harvester failure tolerance and completeness.  For a product page
whose groups yield the entry list handed to the thread pool, if exactly
`K` of the `N` entries fail their detail fetch and every other entry
parses to a valid record, then for every completion order (any permutation
of the future indices) the harvester returns exactly `N − K` accepted
cards and prints exactly `N` progress lines — so the `K` dropped failures
are accounted for (`accepted + K = N`) and no stub is silently lost. -/
theorem c3_harvester_failure_tolerance (fetch : String → Option DetailPage) (today : Nat)
    (fetchImage : String → Option ImageBytes) (groups : List CardGroup)
    (order : List Nat) (K : Nat)
    (hperm : order.Perm (List.range (collectEntries groups).length))
    (hK : (collectEntries groups).countP (fun e => (fetch e.url).isNone) = K)
    (hvalid : ∀ e ∈ collectEntries groups, (fetch e.url).isSome = true →
      (worker fetch today fetchImage e).isSome = true) :
    (parse_product_page fetch today fetchImage order ⟨some groups⟩).1.length + K =
      (collectEntries groups).length ∧
    (parse_product_page fetch today fetchImage order ⟨some groups⟩).1.length =
      (collectEntries groups).length - K ∧
    (parse_product_page fetch today fetchImage order ⟨some groups⟩).2.length =
      (collectEntries groups).length := by
  have hpp : parse_product_page fetch today fetchImage order ⟨some groups⟩ =
      collectLoop ((collectEntries groups).map (worker fetch today fetchImage))
        (collectEntries groups).length order 1 := rfl
  set entries := collectEntries groups with hentries
  set futures := entries.map (worker fetch today fetchImage) with hfutures
  have hlenf : futures.length = entries.length := List.length_map _ _
  have hlen2 : (collectLoop futures entries.length order 1).2.length = order.length :=
    collectLoop_snd_length futures entries.length order 1
  have hordlen : order.length = entries.length := by
    rw [hperm.length_eq, List.length_range]
  have hfst : (collectLoop futures entries.length order 1).1.length =
      order.countP (fun i => (futures.getD i none).isSome) :=
    collectLoop_fst_length futures entries.length order 1
  have hperm' : order.Perm (List.range futures.length) := by
    rw [hlenf]
    exact hperm
  have hcount1 : order.countP (fun i => (futures.getD i none).isSome) =
      futures.countP Option.isSome := by
    rw [hperm'.countP_eq]
    exact countP_range_getD none Option.isSome futures
  have hcount2 : futures.countP Option.isSome =
      entries.countP (fun e => (worker fetch today fetchImage e).isSome) := by
    rw [hfutures, List.countP_map]
    rfl
  have hcount3 : entries.countP (fun e => (worker fetch today fetchImage e).isSome) =
      entries.countP (fun e => (fetch e.url).isSome) := by
    apply List.countP_congr
    intro e he
    cases hf : fetch e.url with
    | none => simp [worker_none_of_fetch_fail hf]
    | some page =>
      have := hvalid e he (by simp [hf])
      simp [this, hf]
  have hsplit : entries.countP (fun e => (fetch e.url).isSome) +
      entries.countP (fun e => (fetch e.url).isNone) = entries.length := by
    have := countP_add_countP_not (fun e => (fetch e.url).isSome) entries
    rw [← this]
    congr 1
    apply List.countP_congr
    intro e he
    cases fetch e.url <;> simp
  rw [hpp]
  refine ⟨?_, ?_, ?_⟩
  · rw [hfst, hcount1, hcount2, hcount3, ← hK]
    exact hsplit
  · rw [hfst, hcount1, hcount2, hcount3]
    omega
  · rw [hlen2, hordlen]

/-- Witness for C3: one group with two entries, of which one fails its
fetch, under the reversed completion order. -/
theorem c3_harvester_failure_tolerance_witness :
    (parse_product_page wFetch 0 wImgFetch [1, 0] ⟨some wGroups⟩).1.length + 1 =
      (collectEntries wGroups).length ∧
    (parse_product_page wFetch 0 wImgFetch [1, 0] ⟨some wGroups⟩).1.length =
      (collectEntries wGroups).length - 1 ∧
    (parse_product_page wFetch 0 wImgFetch [1, 0] ⟨some wGroups⟩).2.length =
      (collectEntries wGroups).length :=
  c3_harvester_failure_tolerance wFetch 0 wImgFetch wGroups [1, 0] 1
    (by decide) (by decide) (by decide)

/-- C4 (intent of the extractor; see C4's code-defect record): the
modelled `parse_card_page` is total by construction (it is a Lean
function), and every missing sub-element yields that field's zero-value
default: a missing detail container gives the all-default record (empty
strings, zero price and quantity, empty image bytes); a missing
information column defaults number, price, quantity, feature and color; a
missing image column defaults the image bytes; an empty `d-flex` list
defaults number, price and quantity; a missing attribute table defaults
feature and color.  In the source as shipped this function cannot return
at all: `models.Card` lacks the `scraped_at` field that
`Card(..., scraped_at=date.today())` passes, so every call raises
`TypeError`; the embedding carries the field, which the rest of the code
base (`db_manager.py` reads `card.scraped_at`) requires. -/
theorem c4_detail_extractor_defaults (today : Nat) (f : String → Option ImageBytes) :
    (parse_card_page today f ⟨none⟩ =
      ⟨"", "", "", [], "", 0, 0, "", "", today⟩) ∧
    (∀ pd : ProductDetail, pd.infoCol = none →
      (parse_card_page today f ⟨some pd⟩).number = "" ∧
      (parse_card_page today f ⟨some pd⟩).price = 0 ∧
      (parse_card_page today f ⟨some pd⟩).quantity = 0 ∧
      (parse_card_page today f ⟨some pd⟩).feature = "" ∧
      (parse_card_page today f ⟨some pd⟩).color = "") ∧
    (∀ pd : ProductDetail, pd.imgCol = none →
      (parse_card_page today f ⟨some pd⟩).image = []) ∧
    (∀ (pd : ProductDetail) (ic : InfoCol), pd.infoCol = some ic → ic.dFlex = [] →
      (parse_card_page today f ⟨some pd⟩).number = "" ∧
      (parse_card_page today f ⟨some pd⟩).price = 0 ∧
      (parse_card_page today f ⟨some pd⟩).quantity = 0) ∧
    (∀ (pd : ProductDetail) (ic : InfoCol), pd.infoCol = some ic → ic.tableDiv = none →
      (parse_card_page today f ⟨some pd⟩).feature = "" ∧
      (parse_card_page today f ⟨some pd⟩).color = "") := by
  refine ⟨rfl, ?_, ?_, ?_, ?_⟩
  · rintro ⟨imgCol, _⟩ rfl
    simp [parse_card_page]
  · rintro ⟨_, infoCol⟩ rfl
    cases infoCol with
    | none => simp [parse_card_page]
    | some ic => cases hd : ic.dFlex with
      | nil => simp [parse_card_page, hd]
      | cons d0 rest => cases rest with
        | nil => simp [parse_card_page, hd]
        | cons d1 rest2 => simp [parse_card_page, hd]
  · rintro ⟨imgCol, _⟩ ic rfl hd
    simp [parse_card_page, hd]
  · rintro ⟨imgCol, _⟩ ic rfl htd
    cases hd : ic.dFlex with
    | nil => simp [parse_card_page, hd, htd]
    | cons d0 rest => cases rest with
      | nil => simp [parse_card_page, hd, htd]
      | cons d1 rest2 => simp [parse_card_page, hd, htd]

/-- Witness for C4 at the empty page and at a page with an empty
information column. -/
theorem c4_detail_extractor_defaults_witness :
    (parse_card_page 0 wImgFetch ⟨none⟩ =
      ⟨"", "", "", [], "", 0, 0, "", "", 0⟩) ∧
    (parse_card_page 0 wImgFetch ⟨some ⟨none, none⟩⟩).number = "" :=
  ⟨(c4_detail_extractor_defaults 0 wImgFetch).1,
   ((c4_detail_extractor_defaults 0 wImgFetch).2.1 ⟨none, none⟩ rfl).1⟩

/-- C5 counterexample: two Category entries sharing a name but differing
in url cannot be held simultaneously.  With `("A", "u1")` already
ingested, ingesting `("A", "u2")` fails with a unique-constraint violation
and the store still holds the single original row — refuting the claim
that Category identity is the `(name, url)` pair with same-name,
different-url categories coexisting: `product.name` alone is declared
unique. -/
theorem c5_same_name_categories_counterexample :
    (insert_products "pic" [pA2]
        (insert_products "pic" [pA1] emptyDb emptyFs).db
        (insert_products "pic" [pA1] emptyDb emptyFs).fs).err =
      some DbError.uniqueViolation ∧
    (insert_products "pic" [pA2]
        (insert_products "pic" [pA1] emptyDb emptyFs).db
        (insert_products "pic" [pA1] emptyDb emptyFs).fs).db.products =
      [⟨1, "A", "u1"⟩] := by
  refine ⟨by decide, by decide⟩

/-- C5 (amended): the store enforces, as an invariant of every state
reachable by ingestion, that Category is unique by name alone (not by the
`(name, url)` pair — the lookup key `(name, url)` notwithstanding, the
schema declares `product.name` unique, so two categories sharing a name
but differing in url cannot coexist), RarityTag is unique by name, Item is
unique by `(category, name)` and Observation by `(item, date)`. -/
theorem c5_uniqueness_invariants (pictureDir : String) (ps : List Product)
    (db : Db) (fs : Fs) (hinv : DbInv db) :
    DbInv (insert_products pictureDir ps db fs).db :=
  insert_products_inv pictureDir ps db fs hinv

/-- Witness for the amended C5 at a concrete batch from the empty store. -/
theorem c5_uniqueness_invariants_witness :
    DbInv (insert_products "pic" [wProduct] emptyDb emptyFs).db :=
  c5_uniqueness_invariants "pic" [wProduct] emptyDb emptyFs dbInv_empty

/-- C6: price normalisation.  Whenever the price element is present (the
second `d-flex` block has its `h4.fw-bold` element with text `s`), the
extracted price is `parsePrice s`, i.e. `int` of `s` with all non-digit
characters stripped; concretely `"¥1,200"` yields `1200`; and a price text
containing no digits yields the default `0`. -/
theorem c6_price_normalisation (today : Nat) (f : String → Option ImageBytes) :
    (∀ (pd : ProductDetail) (ic : InfoCol) (d0 d1 : DFlex) (rest : List DFlex) (s : String),
      pd.infoCol = some ic → ic.dFlex = d0 :: d1 :: rest → d1.priceH4 = some s →
      (parse_card_page today f ⟨some pd⟩).price = parsePrice s) ∧
    parsePrice "¥1,200" = 1200 ∧
    (∀ s : String, (∀ ch ∈ s.data, ch.isDigit = false) → parsePrice s = 0) := by
  refine ⟨?_, ?_, ?_⟩
  · rintro ⟨imgCol, _⟩ ic d0 d1 rest s rfl hd hp
    simp [parse_card_page, hd, hp]
  · decide
  · intro s hs
    have hfilt : s.data.filter Char.isDigit = [] :=
      List.filter_eq_nil_iff.mpr (fun ch hch => by simp [hs ch hch])
    unfold parsePrice digitsOnly
    rw [hfilt]
    rfl

/-- Witness for C6: a concrete page whose price element reads `"¥1,200"`,
and the digit-free text `"abc"`. -/
theorem c6_price_normalisation_witness :
    (parse_card_page 0 wImgFetch
        ⟨some ⟨none, some ⟨none, [⟨none, none, none⟩, ⟨none, some "¥1,200", none⟩]⟩⟩⟩).price =
      parsePrice "¥1,200" ∧
    parsePrice "¥1,200" = 1200 ∧
    parsePrice "abc" = 0 :=
  ⟨(c6_price_normalisation 0 wImgFetch).1 ⟨none, some ⟨none, [⟨none, none, none⟩,
      ⟨none, some "¥1,200", none⟩]⟩⟩ ⟨none, [⟨none, none, none⟩, ⟨none, some "¥1,200", none⟩]⟩
      ⟨none, none, none⟩ ⟨none, some "¥1,200", none⟩ [] "¥1,200" rfl rfl rfl,
   (c6_price_normalisation 0 wImgFetch).2.1,
   (c6_price_normalisation 0 wImgFetch).2.2 "abc" (by decide)⟩

/-- C7: rarity filtering before the fan-out.  Every item stub whose
stripped, upper-cased rarity tag lies in the excluded set (`"C"`, `"U"`,
`"UC"` — the two lowest-common tiers, common and uncommon, the latter
under both spellings) is filtered out while the entry list is collected:
the entry list equals the one collected over the non-excluded groups only,
no collected entry carries an excluded tag, and consequently no harvested
card of any run, under any completion order, carries an excluded tag —
excluded groups produce zero harvested records. -/
theorem c7_rarity_filtering (groups : List CardGroup) :
    (collectEntries groups =
      collectEntries (groups.filter (fun g => !excludedRarity (g.rarityText.getD "")))) ∧
    (∀ e ∈ collectEntries groups, excludedRarity e.rarity = false) ∧
    (∀ (fetch : String → Option DetailPage) (today : Nat)
        (fetchImage : String → Option ImageBytes) (order : List Nat) (c : Card),
      c ∈ (parse_product_page fetch today fetchImage order ⟨some groups⟩).1 →
      excludedRarity c.rarity = false) := by
  refine ⟨collectEntries_eq_filter groups, fun e he => collectEntries_not_excluded he, ?_⟩
  intro fetch today fetchImage order c hc
  have hpp : (parse_product_page fetch today fetchImage order ⟨some groups⟩).1 =
      (collectLoop ((collectEntries groups).map (worker fetch today fetchImage))
        (collectEntries groups).length order 1).1 := rfl
  rw [hpp] at hc
  have hmem := collectLoop_fst_mem hc
  rcases List.mem_map.mp hmem with ⟨e, he, hwe⟩
  rw [worker_rarity hwe]
  exact collectEntries_not_excluded he

/-- Witness for C7 at a concrete group list, entry and harvested card. -/
theorem c7_rarity_filtering_witness :
    (collectEntries wGroups =
      collectEntries (wGroups.filter (fun g => !excludedRarity (g.rarityText.getD "")))) ∧
    excludedRarity (Entry.mk "okurl" "Card" "R").rarity = false ∧
    excludedRarity (Card.mk "Card" "R" "okurl" [] "N1" 0 0 "" "" 0).rarity = false :=
  ⟨(c7_rarity_filtering wGroups).1,
   (c7_rarity_filtering wGroups).2.1 ⟨"okurl", "Card", "R"⟩ (by decide),
   (c7_rarity_filtering wGroups).2.2 wFetch 0 wImgFetch [1, 0]
     ⟨"Card", "R", "okurl", [], "N1", 0, 0, "", "", 0⟩ (by decide)⟩

/-- C8: assets are written once and immutable.  Whatever batch is
ingested, a file already present at some path keeps exactly its bytes: the
asset write is skipped whenever a file exists at the target path, even
when a later harvest carries a different image for the same item, and this
holds on successful and failing runs alike. -/
theorem c8_asset_write_once (pictureDir : String) (ps : List Product) (db : Db)
    (fs : Fs) (path : String) (pb : String × ImageBytes)
    (h : fs.files.find? (fun q => q.1 == path) = some pb) :
    (insert_products pictureDir ps db fs).fs.files.find? (fun q => q.1 == path) =
      some pb :=
  listGrow_find? (insert_products_fs_grow pictureDir ps db fs).files h

/-- Witness for C8: a pre-existing file keeps its bytes across an
ingestion that targets the same path with different bytes. -/
theorem c8_asset_write_once_witness :
    (insert_products "pic" [pA] emptyDb
        ⟨[], [("pic/prodA/cardA.jpg", [9])]⟩).fs.files.find?
        (fun q => q.1 == "pic/prodA/cardA.jpg") =
      some ("pic/prodA/cardA.jpg", [9]) :=
  c8_asset_write_once "pic" [pA] emptyDb ⟨[], [("pic/prodA/cardA.jpg", [9])]⟩
    "pic/prodA/cardA.jpg" ("pic/prodA/cardA.jpg", [9]) (by decide)

/-- C9: no usable image means no asset file.  `parse_card_page` returns
empty image bytes when the image column is missing, when its element has
no usable url (not ending in `.jpg`, or equal to the no-image
placeholder), and when the download fails; processing a card with empty
image bytes never touches the file store (on success and failure paths);
and an ingestion run never creates an empty image file: every file of the
resulting store was present before the call or holds non-empty bytes. -/
theorem c9_no_image_no_asset (today : Nat) (f : String → Option ImageBytes) :
    (∀ (pd : ProductDetail) (ic : ImgCol), pd.imgCol = some ic → ic.img = none →
      (parse_card_page today f ⟨some pd⟩).image = []) ∧
    (∀ (pd : ProductDetail) (ic : ImgCol) (url : String), pd.imgCol = some ic →
      ic.img = some url → strEndsWith url ".jpg" = false →
      (parse_card_page today f ⟨some pd⟩).image = []) ∧
    (∀ (pd : ProductDetail) (ic : ImgCol), pd.imgCol = some ic →
      ic.img = some noImageUrl →
      (parse_card_page today f ⟨some pd⟩).image = []) ∧
    (∀ (pd : ProductDetail) (ic : ImgCol) (url : String), pd.imgCol = some ic →
      ic.img = some url → f url = none →
      (parse_card_page today f ⟨some pd⟩).image = []) ∧
    (∀ (prodDir : String) (prodId : Nat) (c : Card) (s : Sess), c.image = [] →
      (∀ s', stepCard prodDir prodId c s = .ok s' → s'.fs.files = s.fs.files) ∧
      (∀ e s', stepCard prodDir prodId c s = .error (e, s') →
        s'.fs.files = s.fs.files)) ∧
    (∀ (pictureDir : String) (ps : List Product) (db : Db) (fs : Fs),
      (∀ path, (path, ([] : ImageBytes)) ∉ fs.files) →
      ∀ path, (path, ([] : ImageBytes)) ∉
        (insert_products pictureDir ps db fs).fs.files) := by
  refine ⟨?_, ?_, ?_, ?_, ?_, ?_⟩
  · rintro ⟨_, infoCol⟩ ic rfl himg
    cases infoCol <;> simp [parse_card_page, himg]
  · rintro ⟨_, infoCol⟩ ic url rfl himg hjpg
    cases infoCol <;> simp [parse_card_page, himg, hjpg]
  · rintro ⟨_, infoCol⟩ ic rfl himg
    cases infoCol <;> simp [parse_card_page, himg]
  · rintro ⟨_, infoCol⟩ ic url rfl himg hfail
    cases hg : (strEndsWith url ".jpg" && url != noImageUrl) <;>
      cases infoCol <;> simp [parse_card_page, himg, hfail, hg]
  · intro prodDir prodId c s himg
    exact stepCard_empty_image_files himg
  · intro pictureDir ps db fs hclean path hmem
    rcases insert_products_filesClean pictureDir ps db fs _ hmem with h | h
    · exact hclean path h
    · exact h rfl

/-- Witness for C9: a concrete page whose image element is missing parses
to empty bytes, and a concrete run from a store with no empty files
creates none. -/
theorem c9_no_image_no_asset_witness :
    (parse_card_page 0 wImgFetch ⟨some ⟨some ⟨none⟩, none⟩⟩).image = [] ∧
    ("pic/prodA/cardA.jpg", ([] : ImageBytes)) ∉
      (insert_products "pic" [pA] emptyDb emptyFs).fs.files :=
  ⟨(c9_no_image_no_asset 0 wImgFetch).1 ⟨some ⟨none⟩, none⟩ ⟨none⟩ rfl rfl,
   (c9_no_image_no_asset 0 wImgFetch).2.2.2.2.2 "pic" [pA] emptyDb emptyFs
     (by simp [emptyFs]) "pic/prodA/cardA.jpg"⟩

/-- C10: `insert_products` on an empty product list is a complete no-op:
it returns before the session is opened, so the database and the asset
store are returned unchanged, the effect trace is empty (no session
opened, no row queried, no directory made, no file written), and no error
occurs. -/
theorem c10_empty_batch_noop (pictureDir : String) (db : Db) (fs : Fs) :
    insert_products pictureDir [] db fs = ⟨db, fs, [], none⟩ := rfl
